import Mathlib

/-!
# Verification of the swisstools Swiss-tournament core

A shallow embedding of the Go package `swisstools` (files `swisstools.go`,
`export.go` and the pairing-engine file) together with theorems settling the
specification claims about it.

Modelling conventions:
* Go `int` values (player ids, scores, points) are embedded as `Int`; the
  sentinel values `-1` (bye opponent / unset result) are kept as in the source.
* The round counter `currentRound` starts at 1 and is only ever incremented,
  so it is embedded as `Nat`.
* A Go `map[int]Player` is embedded as an association list with unique keys;
  reads of a missing key yield Go's zero value, writes replace in place or
  append.  Go's nondeterministic map-iteration order is abstracted by passing
  the iteration order as an explicit list together with the hypothesis that it
  is a permutation of the stored keys.
* Calls to `rand.Intn(n)` are abstracted by a stream of numbers; the drawn
  index is the stream element reduced `% n`, which ranges over exactly the
  values `rand.Intn` can produce.
* Go methods mutate their receiver and return an `error`; they are embedded
  as functions `Tournament → Tournament × Option String` returning the new
  state and the (optional) error message.
-/

namespace Core

/-- `Player` as declared in swisstools.go. -/
structure Player where
  name : String
  points : Int
  wins : Int
  losses : Int
  draws : Int
  notes : List String
deriving Repr, DecidableEq

/-- Go's zero value for `Player` (returned by a map read of a missing key). -/
def zeroPlayer : Player := ⟨"", 0, 0, 0, 0, []⟩

/-- `Pairing` as declared in swisstools.go. -/
structure Pairing where
  playera : Int
  playerb : Int
  playeraWins : Int
  playerbWins : Int
  draws : Int
deriving Repr, DecidableEq

/-- `type Round = []Pairing`. -/
abbrev Round := List Pairing

/-- The constant block of swisstools.go. -/
def BYE_OPPONENT_ID : Int := -1

def UNINITIALIZED_RESULT : Int := -1

def BYE_WINS : Int := 2

def BYE_LOSSES : Int := 0

def BYE_DRAWS : Int := 0

def POINTS_FOR_WIN : Int := 3

def POINTS_FOR_DRAW : Int := 1

def POINTS_FOR_LOSS : Int := 0

/-- `Tournament` as declared in swisstools.go; the player map is an
association list with (invariantly) unique keys. -/
structure Tournament where
  lastId : Int
  players : List (Int × Player)
  currentRound : Nat
  rounds : List Round
deriving Repr, DecidableEq

/-- Read `t.players[id]`: Go map read, zero value when the key is missing. -/
def mapGet (m : List (Int × Player)) (id : Int) : Player :=
  match m with
  | [] => zeroPlayer
  | (k, v) :: rest => if k == id then v else mapGet rest id

/-- Write `t.players[id] = p`: Go map write, replace or insert. -/
def mapSet (m : List (Int × Player)) (id : Int) (p : Player) : List (Int × Player) :=
  match m with
  | [] => [(id, p)]
  | (k, v) :: rest => if k == id then (id, p) :: rest else (k, v) :: mapSet rest id p

/-- The current round's pairing slice `t.rounds[t.currentRound]`.  Every use
in the source is guarded by `t.currentRound >= len(t.rounds)` checks, so the
default never shows through. -/
def curRound (t : Tournament) : Round :=
  t.rounds.getD t.currentRound []

/-- One iteration of the second pass of `UpdatePlayerStandings`: fold a single
pairing's outcome into the player map (swisstools.go lines 208–246). -/
def applyPairing (players : List (Int × Player)) (p : Pairing) : List (Int × Player) :=
  if p.playerb == BYE_OPPONENT_ID then
    let playerA := mapGet players p.playera
    mapSet players p.playera
      { playerA with wins := playerA.wins + 1, points := playerA.points + POINTS_FOR_WIN }
  else
    let playerA := mapGet players p.playera
    let playerB := mapGet players p.playerb
    if p.playeraWins > p.playerbWins then
      mapSet
        (mapSet players p.playera
          { playerA with wins := playerA.wins + 1, points := playerA.points + POINTS_FOR_WIN })
        p.playerb
        { playerB with losses := playerB.losses + 1, points := playerB.points + POINTS_FOR_LOSS }
    else if p.playerbWins > p.playeraWins then
      mapSet
        (mapSet players p.playera
          { playerA with losses := playerA.losses + 1, points := playerA.points + POINTS_FOR_LOSS })
        p.playerb
        { playerB with wins := playerB.wins + 1, points := playerB.points + POINTS_FOR_WIN }
    else
      mapSet
        (mapSet players p.playera
          { playerA with draws := playerA.draws + 1, points := playerA.points + POINTS_FOR_DRAW })
        p.playerb
        { playerB with draws := playerB.draws + 1, points := playerB.points + POINTS_FOR_DRAW }

/-- The pass-1 incompleteness test of `UpdatePlayerStandings` (lines 200–205):
some pairing still carries an `UNINITIALIZED_RESULT` field. -/
def hasIncomplete (r : Round) : Bool :=
  r.any fun p =>
    p.playeraWins == UNINITIALIZED_RESULT || p.playerbWins == UNINITIALIZED_RESULT ||
      p.draws == UNINITIALIZED_RESULT

/-- `UpdatePlayerStandings` (swisstools.go lines 190–248). -/
def UpdatePlayerStandings (t : Tournament) : Tournament × Option String :=
  if t.rounds.length ≤ t.currentRound then
    (t, some "round not initialized - call Pair() first")
  else if (curRound t).length == 0 then
    (t, some "round has no pairings - call Pair() first")
  else if hasIncomplete (curRound t) then
    (t, some "incomplete match found - all matches must have results")
  else
    ({ t with players := (curRound t).foldl applyPairing t.players }, none)

/-- The round-storage growth loop of `NextRound` (lines 99–101). -/
def extendRounds (rs : List Round) (n : Nat) : List Round :=
  if rs.length ≤ n then extendRounds (rs ++ [[]]) n else rs
termination_by n + 1 - rs.length
decreasing_by simp; omega

/-- `NextRound` (swisstools.go lines 92–103). -/
def NextRound (t : Tournament) : Tournament × Option String :=
  match UpdatePlayerStandings t with
  | (t1, some e) => (t1, some e)
  | (t1, none) =>
    let t2 := { t1 with currentRound := t1.currentRound + 1 }
    ({ t2 with rounds := extendRounds t2.rounds t2.currentRound }, none)

/-- The search loop of `AddResult` (lines 160–173): update the first pairing
containing `id`, storing the supplied scores from `id`'s perspective. -/
def addResultLoop (r : Round) (id wins losses drawCount : Int) : Option Round :=
  match r with
  | [] => none
  | p :: rest =>
    if p.playera == id then
      some ({ p with playeraWins := wins, playerbWins := losses, draws := drawCount } :: rest)
    else if p.playerb == id then
      some ({ p with playerbWins := wins, playeraWins := losses, draws := drawCount } :: rest)
    else
      (addResultLoop rest id wins losses drawCount).map (p :: ·)

/-- `AddResult` (swisstools.go lines 151–175). -/
def AddResult (t : Tournament) (id wins losses drawCount : Int) : Tournament × Option String :=
  if t.rounds.length ≤ t.currentRound then
    (t, some "round not initialized - call NextRound() first")
  else if (curRound t).length == 0 then
    (t, some "round has no pairings - call Pair() first")
  else
    match addResultLoop (curRound t) id wins losses drawCount with
    | some newRound => ({ t with rounds := t.rounds.set t.currentRound newRound }, none)
    | none => (t, some "player not found")

/-- `removeRandomPlayer` (pairing engine lines 108–120): select `players[i]`,
swap the last element into its slot and shrink the slice by one.  The result
of `rand.Intn(len(players))` is supplied as `idx % players.length`. -/
def removeRandomPlayer (players : List Int) (idx : Nat) : Int × List Int :=
  let i := idx % players.length
  (players.getD i 0, (players.set i (players.getLastD 0)).dropLast)

theorem length_removeRandomPlayer (l : List Int) (idx : Nat) :
    (removeRandomPlayer l idx).2.length = l.length - 1 := by
  simp [removeRandomPlayer]

/-- The pairing loop of `randomPair` (lines 415–441), drawing indices from the
stream `rng` (two per iteration). -/
def randomPairLoop (players : List Int) (rng : List Nat) : List Pairing :=
  match players with
  | [] => []
  | [p] => [⟨p, BYE_OPPONENT_ID, BYE_WINS, BYE_LOSSES, BYE_DRAWS⟩]
  | a :: b :: rest =>
    let r1 := removeRandomPlayer (a :: b :: rest) (rng.headD 0)
    let r2 := removeRandomPlayer r1.2 (rng.getD 1 0)
    ⟨r1.1, r2.1, UNINITIALIZED_RESULT, UNINITIALIZED_RESULT, UNINITIALIZED_RESULT⟩ ::
      randomPairLoop r2.2 (rng.drop 2)
termination_by players.length
decreasing_by
  simp [length_removeRandomPlayer]
  omega

/-- `randomPair` (lines 403–445).  `order` is the order in which Go's
nondeterministic map iteration yields the player ids. -/
def randomPair (t : Tournament) (order : List Int) (rng : List Nat) :
    Tournament × Option String :=
  if t.players.length == 0 then
    (t, some "cannot create random pairings with no players")
  else
    ({ t with rounds := t.rounds.set t.currentRound (randomPairLoop order rng) }, none)

/-- The inner scan of `havePlayedBefore` over one round's pairings. -/
def roundHasBoth (r : Round) (a b : Int) : Bool :=
  r.any fun p => (p.playera == a && p.playerb == b) || (p.playera == b && p.playerb == a)

/-- `havePlayedBefore` (lines 386–400): scan rounds `1 .. currentRound-1`,
skipping indices beyond the round storage. -/
def havePlayedBefore (t : Tournament) (a b : Int) : Bool :=
  (List.range' 1 (t.currentRound - 1)).any fun rd =>
    if t.rounds.length ≤ rd then false else roundHasBoth (t.rounds.getD rd []) a b

/-- `findBestOpponent` (lines 348–383): three scans of `sortedPlayers` with
early return, then `-1` when no unpaired opponent remains. -/
def findBestOpponent (t : Tournament) (playerID : Int) (sortedPlayers : List Int)
    (paired : List Int) : Int :=
  match sortedPlayers.find? (fun o => !(o == playerID || paired.contains o) &&
      ((mapGet t.players o).points == (mapGet t.players playerID).points &&
        !havePlayedBefore t playerID o)) with
  | some o => o
  | none =>
  match sortedPlayers.find? (fun o => !(o == playerID || paired.contains o) &&
      !havePlayedBefore t playerID o) with
  | some o => o
  | none =>
  match sortedPlayers.find? (fun o => !(o == playerID || paired.contains o)) with
  | some o => o
  | none => -1

/-- The Swiss walk of `Pair` (lines 257–287): visit `sortedPlayers` in order,
pair each not-yet-paired player with its best opponent or give it a bye.
`paired` is the membership set `map[int]bool`, `acc` the pairings built so
far (Go appends). -/
def pairLoop (t : Tournament) (sortedPlayers : List Int) (i : Nat) (paired : List Int)
    (acc : List Pairing) : List Pairing :=
  if h : i < sortedPlayers.length then
    if paired.contains (sortedPlayers.get ⟨i, h⟩) then
      pairLoop t sortedPlayers (i + 1) paired acc
    else if findBestOpponent t (sortedPlayers.get ⟨i, h⟩) sortedPlayers paired != -1 then
      pairLoop t sortedPlayers (i + 1)
        (sortedPlayers.get ⟨i, h⟩ ::
          findBestOpponent t (sortedPlayers.get ⟨i, h⟩) sortedPlayers paired :: paired)
        (acc ++ [⟨sortedPlayers.get ⟨i, h⟩,
          findBestOpponent t (sortedPlayers.get ⟨i, h⟩) sortedPlayers paired,
          UNINITIALIZED_RESULT, UNINITIALIZED_RESULT, UNINITIALIZED_RESULT⟩])
    else
      pairLoop t sortedPlayers (i + 1) (sortedPlayers.get ⟨i, h⟩ :: paired)
        (acc ++ [⟨sortedPlayers.get ⟨i, h⟩, BYE_OPPONENT_ID, BYE_WINS, BYE_LOSSES, BYE_DRAWS⟩])
  else acc
termination_by sortedPlayers.length - i

/-- The tail of `Pair` after the state checks (lines 244–290): round 1 goes to
`randomPair`, later rounds run the Swiss walk and store its output. -/
def pairBody (t : Tournament) (sortedPlayers order : List Int) (rng : List Nat) :
    Tournament × Option String :=
  if t.currentRound == 1 then randomPair t order rng
  else
    ({ t with rounds := t.rounds.set t.currentRound (pairLoop t sortedPlayers 0 [] []) }, none)

/-- `Pair` (pairing engine lines 225–291).  `sortedPlayers` abstracts the
output of `getSortedPlayers` (points-descending order, shuffled within point
groups), `order` the map-iteration order used by `randomPair`, `rng` the
random stream. -/
def Pair (t : Tournament) (allowRepair : Bool) (sortedPlayers order : List Int)
    (rng : List Nat) : Tournament × Option String :=
  if t.players.length == 0 then
    (t, some "cannot pair tournament with no players")
  else if t.currentRound < 1 then
    (t, some "invalid tournament state: current round must be >= 1")
  else if t.currentRound < t.rounds.length && (curRound t).length > 0 then
    if !allowRepair then
      (t, some "round already has pairings - use Pair(true) to allow re-pairing")
    else
      pairBody { t with rounds := t.rounds.set t.currentRound [] } sortedPlayers order rng
  else pairBody t sortedPlayers order rng

/-- The ids stored in the player map. -/
def keys (t : Tournament) : List Int := t.players.map Prod.fst

/-- The (multiset of) players occurring in one pairing; the bye slot `-1` is
not a player. -/
def pairingPlayers (p : Pairing) : Multiset Int :=
  if p.playerb = BYE_OPPONENT_ID then {p.playera} else {p.playera, p.playerb}

/-- All player occurrences in a round. -/
def roundPlayers (r : Round) : Multiset Int := (r.map pairingPlayers).sum

/-- A pairing is a bye when its `playerb` is the bye sentinel. -/
def isBye (p : Pairing) : Bool := p.playerb == BYE_OPPONENT_ID

/-- One match win plus the win points, as the spec words the standings delta. -/
def matchWin (pl : Player) : Player :=
  { pl with wins := pl.wins + 1, points := pl.points + POINTS_FOR_WIN }

/-- One match loss plus the loss points. -/
def matchLoss (pl : Player) : Player :=
  { pl with losses := pl.losses + 1, points := pl.points + POINTS_FOR_LOSS }

/-- One match draw plus the draw points. -/
def matchDraw (pl : Player) : Player :=
  { pl with draws := pl.draws + 1, points := pl.points + POINTS_FOR_DRAW }

/-- `lookup?`: the binding stored for `id`, if any (used to state that two
player maps agree extensionally). -/
def lookup? (m : List (Int × Player)) (id : Int) : Option Player :=
  match m with
  | [] => none
  | (k, v) :: rest => if k == id then some v else lookup? rest id

end Core

namespace Snapshot

/-!
The snapshot model of export.go.  The full `Tournament` struct this file
works on (with config, lifecycle flags, game totals, removal data and
optional metadata) is not itself among the given sources — export.go and the
tests are its only witnesses — so the struct is reconstructed from exactly
the fields export.go reads and writes.  The JSON encode/decode layer
(`json.Marshal`/`json.Unmarshal` on the export schema) is Go library code
outside the core and is modelled as the identity on the schema value.
-/

/-- Structured decklist; export.go copies it as an opaque pointer, the spec
calls it two named multisets of card→quantity. -/
structure Decklist where
  main : List (String × Nat)
  sideboard : List (String × Nat)
deriving Repr, DecidableEq

/-- `TournamentConfig` with the fields the tests construct. -/
structure TournamentConfig where
  PointsForWin : Int
  PointsForDraw : Int
  PointsForLoss : Int
  ByeWins : Int
  ByeLosses : Int
  ByeDraws : Int
deriving Repr, DecidableEq

/-- The full `Player` record as read by `DumpTournament` / written by
`LoadTournament`. -/
structure Player where
  name : String
  points : Int
  wins : Int
  losses : Int
  draws : Int
  gameWins : Int
  gameLosses : Int
  gameDraws : Int
  notes : List String
  removed : Bool
  removedInRound : Int
  externalID : Option Int
  decklist : Option Decklist
deriving Repr, DecidableEq

/-- The full `Tournament` record as serialized by export.go. -/
structure Tournament where
  config : TournamentConfig
  lastId : Int
  players : List (Int × Player)
  currentRound : Int
  started : Bool
  finished : Bool
  rounds : List (List Core.Pairing)
deriving Repr, DecidableEq

/-- `playerExport` (export.go lines 25–40).  The Go field `Decklist` is
renamed `DeckList` because in Lean it would shadow the type name. -/
structure playerExport where
  ID : Int
  Name : String
  Points : Int
  Wins : Int
  Losses : Int
  Draws : Int
  GameWins : Int
  GameLosses : Int
  GameDraws : Int
  Notes : List String
  Removed : Bool
  RemovedInRound : Int
  ExternalID : Option Int
  DeckList : Option Decklist
deriving Repr, DecidableEq

/-- `pairingExport` (export.go lines 42–48). -/
structure pairingExport where
  PlayerA : Int
  PlayerB : Int
  PlayerAWins : Int
  PlayerBWins : Int
  Draws : Int
deriving Repr, DecidableEq

/-- `tournamentExport` (export.go lines 14–23). -/
structure tournamentExport where
  Version : String
  Config : TournamentConfig
  LastID : Int
  CurrentRound : Int
  Started : Bool
  Finished : Bool
  Players : List playerExport
  Rounds : List (List pairingExport)
deriving Repr, DecidableEq

def exportVersion : String := "1.0.0"

/-- Go map read for the snapshot-level player record. -/
def mapGet (m : List (Int × Player)) (id : Int) : Player :=
  match m with
  | [] => ⟨"", 0, 0, 0, 0, 0, 0, 0, [], false, 0, none, none⟩
  | (k, v) :: rest => if k == id then v else mapGet rest id

/-- Go map write for the snapshot-level player record. -/
def mapSet (m : List (Int × Player)) (id : Int) (p : Player) : List (Int × Player) :=
  match m with
  | [] => [(id, p)]
  | (k, v) :: rest => if k == id then (id, p) :: rest else (k, v) :: mapSet rest id p

/-- Option-valued lookup, to state extensional equality of player maps. -/
def lookup? (m : List (Int × Player)) (id : Int) : Option Player :=
  match m with
  | [] => none
  | (k, v) :: rest => if k == id then some v else lookup? rest id

/-- The per-player serialization step of `DumpTournament` (lines 67–82). -/
def toPlayerExport (id : Int) (p : Player) : playerExport :=
  ⟨id, p.name, p.points, p.wins, p.losses, p.draws, p.gameWins, p.gameLosses, p.gameDraws,
    p.notes, p.removed, p.removedInRound, p.externalID, p.decklist⟩

/-- The per-pairing serialization step (lines 89–96). -/
def toPairingExport (pr : Core.Pairing) : pairingExport :=
  ⟨pr.playera, pr.playerb, pr.playeraWins, pr.playerbWins, pr.draws⟩

/-- `DumpTournament` (export.go lines 55–113): players serialized in
ascending id order (`sort.Ints`), rounds mapped pairing by pairing. -/
def DumpTournament (t : Tournament) : tournamentExport :=
  let playerIDs := (t.players.map Prod.fst).insertionSort (· ≤ ·)
  { Version := exportVersion
    Config := t.config
    LastID := t.lastId
    CurrentRound := t.currentRound
    Started := t.started
    Finished := t.finished
    Players := playerIDs.map fun id => toPlayerExport id (mapGet t.players id)
    Rounds := t.rounds.map fun r => r.map toPairingExport }

/-- The per-player deserialization step of `LoadTournament` (lines 139–156). -/
def fromPlayerExport (pe : playerExport) : Player :=
  ⟨pe.Name, pe.Points, pe.Wins, pe.Losses, pe.Draws, pe.GameWins, pe.GameLosses, pe.GameDraws,
    pe.Notes, pe.Removed, pe.RemovedInRound, pe.ExternalID, pe.DeckList⟩

/-- The per-pairing deserialization step (lines 160–171). -/
def fromPairingExport (pe : pairingExport) : Core.Pairing :=
  ⟨pe.PlayerA, pe.PlayerB, pe.PlayerAWins, pe.PlayerBWins, pe.Draws⟩

/-- `LoadTournament` (export.go lines 123–175): rebuild the player map by
inserting each serialized player, rebuild the rounds pairing by pairing. -/
def LoadTournament (payload : tournamentExport) : Tournament :=
  { config := payload.Config
    lastId := payload.LastID
    players := payload.Players.foldl (fun m pe => mapSet m pe.ID (fromPlayerExport pe)) []
    currentRound := payload.CurrentRound
    started := payload.Started
    finished := payload.Finished
    rounds := payload.Rounds.map fun r => r.map fromPairingExport }

/-- A concrete snapshot-level tournament exercising every serialized field:
one active player and one removed player with notes, metadata and a
decklist, plus a finished round and an in-progress round. -/
def tSnap : Tournament :=
  { config := ⟨3, 1, 0, 2, 0, 0⟩
    lastId := 2
    players :=
      [(2, ⟨"y", 3, 1, 0, 0, 2, 1, 0, ["note"], true, 2, some 77, some ⟨[("A", 4)], []⟩⟩),
       (1, ⟨"x", 0, 0, 1, 0, 1, 2, 0, [], false, 0, none, none⟩)]
    currentRound := 2
    started := true
    finished := false
    rounds := [[], [⟨1, 2, 2, 1, 0⟩], [⟨1, 2, -1, -1, -1⟩]] }

end Snapshot

namespace RegistryModel

/-!
The player-lifecycle registry.  The `addPlayer` that checks for duplicate
active names and the removal machinery are part of the current core that is
not among the given sources (only the tests and export.go refer to
`removed`, late-entry notes and duplicate rejection), so this component is
modelled from the spec.
-/

/-- Modelled from the spec: the player record as the registry (§4.1) needs
it — display name, audit notes, `removed` flag.  The full stats fields are
irrelevant to registration and omitted. -/
structure RegPlayer where
  name : String
  notes : List String
  removed : Bool
deriving Repr, DecidableEq

/-- Modelled from the spec: the registry state — id counter, id→player map,
started flag (for the late-entry note). -/
structure Registry where
  lastId : Int
  players : List (Int × RegPlayer)
  started : Bool
deriving Repr, DecidableEq

/-- Modelled from the spec (§4.1): `addPlayer(name)` fails with
`InvalidInput` if the name is empty or already used by a currently-active
(non-removed) player; otherwise assigns the next integer id from the
registry-wide counter and stores the new player (with a late-entry audit
note if the tournament has started). -/
def addPlayer (r : Registry) (name : String) : Registry × Option String :=
  if name = "" then (r, some "InvalidInput: empty name")
  else if r.players.any (fun kv => !kv.2.removed && kv.2.name == name) then
    (r, some "InvalidInput: name already used by an active player")
  else
    let id := r.lastId + 1
    ({ r with
        lastId := id
        players := r.players ++
          [(id, { name := name, notes := if r.started then ["Late entry"] else [], removed := false })] },
      none)

end RegistryModel

namespace Tiebreak

/-!
The tiebreaker computation of §4.4.  No source file under src/ computes
opponent percentages (the TiebreakerEngine belongs to the current core that
is absent), so the computation is modelled from the spec.
-/

/-- Modelled from the spec (§4.4): one opponent's percentage — `wins`
successes out of `matches` tries (0 when nothing played, as a division by
zero), floored up to one-third before averaging. -/
def flooredPct (wins played : Nat) : ℚ :=
  max (1 / 3) ((wins : ℚ) / (played : ℚ))

/-- Modelled from the spec (§4.4): the opponent match-win (or game-win)
percentage of a player — the average of the floored percentages of the
player's distinct opponents, each given as a (successes, tries) pair. -/
def opponentAveragePct (opps : List (Nat × Nat)) : ℚ :=
  ((opps.map fun o => flooredPct o.1 o.2).sum) / (opps.length : ℚ)

end Tiebreak

namespace Core

/-!
Specification-side predicates for the opponent search, written the way the
spec words them; the theorems below connect them to the code's scans.
-/

/-- The spec's "have they played before": some pairing of a prior round
`1 .. currentRound-1` contains both ids, in either order.  (A round index
beyond the stored rounds holds no pairings.) -/
def PlayedBefore (t : Tournament) (a b : Int) : Prop :=
  ∃ rd, 1 ≤ rd ∧ rd < t.currentRound ∧
    ∃ p ∈ t.rounds.getD rd [],
      (p.playera = a ∧ p.playerb = b) ∨ (p.playera = b ∧ p.playerb = a)

instance instDecidablePlayedBefore (t : Tournament) (a b : Int) :
    Decidable (PlayedBefore t a b) :=
  decidable_of_iff
    ((List.range' 1 (t.currentRound - 1)).any
      (fun rd => roundHasBoth (t.rounds.getD rd []) a b) = true)
    (by
      rw [List.any_eq_true]
      constructor
      · rintro ⟨rd, hrd, hb⟩
        rw [List.mem_range'] at hrd
        obtain ⟨idx, hidx, rfl⟩ := hrd
        simp only [roundHasBoth, List.any_eq_true, Bool.or_eq_true, Bool.and_eq_true,
          beq_iff_eq] at hb
        obtain ⟨p, hp, hcase⟩ := hb
        exact ⟨1 + 1 * idx, by omega, by omega, p, hp, hcase⟩
      · rintro ⟨rd, h1, h2, p, hp, hcase⟩
        refine ⟨rd, ?_, ?_⟩
        · rw [List.mem_range']
          exact ⟨rd - 1, by omega, by omega⟩
        · simp only [roundHasBoth, List.any_eq_true, Bool.or_eq_true, Bool.and_eq_true,
            beq_iff_eq]
          exact ⟨p, hp, hcase⟩)

/-- The spec's first search tier: an unpaired other player with the same
point total who has never played this player. -/
def SamePointsFresh (t : Tournament) (playerID : Int) (paired : List Int) (o : Int) :
    Prop :=
  o ≠ playerID ∧ o ∉ paired ∧
    (mapGet t.players o).points = (mapGet t.players playerID).points ∧
    ¬ PlayedBefore t playerID o

/-- The spec's second search tier: any unpaired other player who has never
played this player. -/
def FreshOpponent (t : Tournament) (playerID : Int) (paired : List Int) (o : Int) :
    Prop :=
  o ≠ playerID ∧ o ∉ paired ∧ ¬ PlayedBefore t playerID o

/-- The spec's last search tier: any unpaired other player (rematch
allowed). -/
def AnyOpponent (playerID : Int) (paired : List Int) (o : Int) : Prop :=
  o ≠ playerID ∧ o ∉ paired

instance (t : Tournament) (playerID : Int) (paired : List Int) (o : Int) :
    Decidable (SamePointsFresh t playerID paired o) := by
  unfold SamePointsFresh
  infer_instance

instance (t : Tournament) (playerID : Int) (paired : List Int) (o : Int) :
    Decidable (FreshOpponent t playerID paired o) := by
  unfold FreshOpponent
  infer_instance

instance (playerID : Int) (paired : List Int) (o : Int) :
    Decidable (AnyOpponent playerID paired o) := by
  unfold AnyOpponent
  infer_instance

/-! Concrete sample states used to instantiate the theorems. -/

/-- A fresh player named `nm`. -/
def P0 (nm : String) : Player := ⟨nm, 0, 0, 0, 0, []⟩

/-- Two players, round 1 paired but with the result still unset. -/
def tInc : Tournament :=
  ⟨2, [(1, P0 "a"), (2, P0 "b")], 1, [[], [⟨1, 2, -1, -1, -1⟩]]⟩

/-- Three players, round 1 fully recorded: 1 beat 2 by 2–1, 3 had the bye. -/
def tComp : Tournament :=
  ⟨3, [(1, P0 "a"), (2, P0 "b"), (3, P0 "c")], 1,
    [[], [⟨1, 2, 2, 1, 0⟩, ⟨3, -1, 2, 0, 0⟩]]⟩

end Core

/-! ## Theorems -/

namespace Core

theorem mapGet_mapSet_self (m : List (Int × Player)) (id : Int) (p : Player) :
    mapGet (mapSet m id p) id = p := by
  induction m with
  | nil => simp [mapGet, mapSet]
  | cons kv rest ih =>
    obtain ⟨k, v⟩ := kv
    by_cases h : k = id
    · simp [mapGet, mapSet, h]
    · simpa [mapGet, mapSet, h] using ih

theorem mapGet_mapSet_ne (m : List (Int × Player)) (id id' : Int) (p : Player)
    (h : id' ≠ id) : mapGet (mapSet m id p) id' = mapGet m id' := by
  induction m with
  | nil => simp [mapGet, mapSet, Ne.symm h]
  | cons kv rest ih =>
    obtain ⟨k, v⟩ := kv
    by_cases hk : k = id
    · subst hk
      simp [mapGet, mapSet, Ne.symm h]
    · by_cases hk' : k = id'
      · subst hk'
        simp [mapGet, mapSet, hk]
      · simpa [mapGet, mapSet, hk, hk'] using ih

/-- C1: with the current round present and non-empty, `UpdatePlayerStandings`
fails with the incomplete-round error, leaving the whole state (in particular
every player's cumulative wins, losses, draws and points) unchanged, whenever
some non-bye pairing still carries an unset result field; and when every
pairing is complete it succeeds and folds every pairing's outcome into the
player map. -/
theorem updatePlayerStandings_atomic (t : Tournament)
    (h1 : t.currentRound < t.rounds.length) (h2 : curRound t ≠ []) :
    ((∃ p ∈ curRound t, p.playerb ≠ BYE_OPPONENT_ID ∧
        (p.playeraWins = UNINITIALIZED_RESULT ∨ p.playerbWins = UNINITIALIZED_RESULT ∨
          p.draws = UNINITIALIZED_RESULT)) →
      UpdatePlayerStandings t =
        (t, some "incomplete match found - all matches must have results")) ∧
    ((∀ p ∈ curRound t, p.playeraWins ≠ UNINITIALIZED_RESULT ∧
        p.playerbWins ≠ UNINITIALIZED_RESULT ∧ p.draws ≠ UNINITIALIZED_RESULT) →
      UpdatePlayerStandings t =
        ({ t with players := (curRound t).foldl applyPairing t.players }, none)) := by
  have hg1 : ¬ t.rounds.length ≤ t.currentRound := by omega
  have hg2 : ¬ (curRound t).length = 0 := by simpa [List.length_eq_zero] using h2
  constructor
  · rintro ⟨p, hp, -, hinc⟩
    have hI : hasIncomplete (curRound t) = true := by
      simp only [hasIncomplete, List.any_eq_true]
      refine ⟨p, hp, ?_⟩
      rcases hinc with h | h | h <;> simp [h]
    simp [UpdatePlayerStandings, hg1, hg2, hI]
  · intro hall
    have hI : ¬ hasIncomplete (curRound t) = true := by
      simp only [hasIncomplete, List.any_eq_true]
      rintro ⟨p, hp, hbad⟩
      obtain ⟨ha, hb, hd⟩ := hall p hp
      simp [ha, hb, hd] at hbad
    simp [UpdatePlayerStandings, hg1, hg2, hI]

/-- C3: the outcome a single complete pairing contributes to the standings:
a bye grants its player a match win and the win points; in a real pairing the
side with strictly more games won gains a match win and the win points and
the other side a match loss and the loss points; equal games won gives both
sides a match draw and the draw points; no other player's record changes. -/
theorem applyPairing_outcome (m : List (Int × Player)) (p : Pairing)
    (hab : p.playera ≠ p.playerb) :
    (∀ id, id ≠ p.playera → id ≠ p.playerb → mapGet (applyPairing m p) id = mapGet m id) ∧
    (p.playerb = BYE_OPPONENT_ID →
      mapGet (applyPairing m p) p.playera = matchWin (mapGet m p.playera)) ∧
    (p.playerb ≠ BYE_OPPONENT_ID →
      (p.playerbWins < p.playeraWins →
        mapGet (applyPairing m p) p.playera = matchWin (mapGet m p.playera) ∧
        mapGet (applyPairing m p) p.playerb = matchLoss (mapGet m p.playerb)) ∧
      (p.playeraWins < p.playerbWins →
        mapGet (applyPairing m p) p.playera = matchLoss (mapGet m p.playera) ∧
        mapGet (applyPairing m p) p.playerb = matchWin (mapGet m p.playerb)) ∧
      (p.playeraWins = p.playerbWins →
        mapGet (applyPairing m p) p.playera = matchDraw (mapGet m p.playera) ∧
        mapGet (applyPairing m p) p.playerb = matchDraw (mapGet m p.playerb))) := by
  by_cases hbye : p.playerb = BYE_OPPONENT_ID
  · refine ⟨?_, fun _ => ?_, fun hnb => absurd hbye hnb⟩
    · intro id hia _
      simp [applyPairing, hbye, mapGet_mapSet_ne _ _ _ _ hia]
    · simp [applyPairing, hbye, mapGet_mapSet_self, matchWin]
  · have hba : p.playerb ≠ p.playera := Ne.symm hab
    refine ⟨?_, fun hb => absurd hb hbye, fun _ => ⟨fun hlt => ?_, fun hlt => ?_, fun heq => ?_⟩⟩
    · intro id hia hib
      rcases lt_trichotomy p.playeraWins p.playerbWins with h | h | h
      · simp [applyPairing, hbye, h, asymm h, mapGet_mapSet_ne _ _ _ _ hia,
          mapGet_mapSet_ne _ _ _ _ hib]
      · simp [applyPairing, hbye, h, lt_irrefl, mapGet_mapSet_ne _ _ _ _ hia,
          mapGet_mapSet_ne _ _ _ _ hib]
      · simp [applyPairing, hbye, h, asymm h, mapGet_mapSet_ne _ _ _ _ hia,
          mapGet_mapSet_ne _ _ _ _ hib]
    · simp [applyPairing, hbye, hlt, asymm hlt, mapGet_mapSet_self,
        mapGet_mapSet_ne _ _ _ _ hab, matchWin, matchLoss]
    · simp [applyPairing, hbye, hlt, asymm hlt, mapGet_mapSet_self,
        mapGet_mapSet_ne _ _ _ _ hab, matchWin, matchLoss]
    · simp [applyPairing, hbye, heq, lt_irrefl, mapGet_mapSet_self,
        mapGet_mapSet_ne _ _ _ _ hab, matchDraw]

theorem updatePlayerStandings_shape (t : Tournament) :
    (UpdatePlayerStandings t).1.currentRound = t.currentRound ∧
    (UpdatePlayerStandings t).1.rounds = t.rounds ∧
    ((UpdatePlayerStandings t).2 ≠ none → (UpdatePlayerStandings t).1 = t) := by
  unfold UpdatePlayerStandings
  split
  · simp
  · split
    · simp
    · split <;> simp

/-- C4: `NextRound` advances the round counter by exactly one precisely when
the embedded standings update succeeds; on failure the same error is
propagated and the whole tournament state — in particular the round counter
and the round storage — is unchanged. -/
theorem nextRound_advances_iff (t : Tournament) :
    ((UpdatePlayerStandings t).2 = none →
      (NextRound t).2 = none ∧ (NextRound t).1.currentRound = t.currentRound + 1) ∧
    (∀ e, (UpdatePlayerStandings t).2 = some e → NextRound t = (t, some e)) := by
  obtain ⟨hcr, hrs, herr⟩ := updatePlayerStandings_shape t
  constructor
  · intro hok
    rcases hu : UpdatePlayerStandings t with ⟨t1, e⟩
    rcases e with - | e
    · rw [hu] at hcr
      have hcr2 : t1.currentRound = t.currentRound := hcr
      simp [NextRound, hu, hcr2]
    · rw [hu] at hok; simp at hok
  · intro e he
    rcases hu : UpdatePlayerStandings t with ⟨t1, e'⟩
    rcases e' with - | e'
    · rw [hu] at he; simp at he
    · have h1 : t1 = t := by rw [hu] at herr; simpa using herr
      have h2 : e' = e := by rw [hu] at he; simpa using he
      simp [NextRound, hu, h1, h2]

end Core

namespace Core

/-- Witness for C1: at `tInc` the incomplete branch fires and the state is
returned unchanged; at `tComp` the update succeeds and folds every pairing. -/
theorem updatePlayerStandings_atomic_witness :
    UpdatePlayerStandings tInc =
      (tInc, some "incomplete match found - all matches must have results") ∧
    UpdatePlayerStandings tComp =
      ({ tComp with players := (curRound tComp).foldl applyPairing tComp.players }, none) :=
  ⟨(updatePlayerStandings_atomic tInc (by decide) (by decide)).1 (by decide),
   (updatePlayerStandings_atomic tComp (by decide) (by decide)).2 (by decide)⟩

/-- Witness for C3: a 2–1 real pairing gives the winner a match win worth 3
points, the loser a match loss worth 0, and leaves a bystander unchanged. -/
theorem applyPairing_outcome_witness :
    mapGet (applyPairing [(1, P0 "a"), (2, P0 "b")] ⟨1, 2, 2, 1, 0⟩) 1 =
      matchWin (mapGet [(1, P0 "a"), (2, P0 "b")] 1) ∧
    mapGet (applyPairing [(1, P0 "a"), (2, P0 "b")] ⟨1, 2, 2, 1, 0⟩) 2 =
      matchLoss (mapGet [(1, P0 "a"), (2, P0 "b")] 2) ∧
    mapGet (applyPairing [(1, P0 "a"), (2, P0 "b")] ⟨1, 2, 2, 1, 0⟩) 5 =
      mapGet [(1, P0 "a"), (2, P0 "b")] 5 :=
  ⟨(((applyPairing_outcome [(1, P0 "a"), (2, P0 "b")] ⟨1, 2, 2, 1, 0⟩ (by decide)).2.2
      (by decide)).1 (by decide)).1,
   (((applyPairing_outcome [(1, P0 "a"), (2, P0 "b")] ⟨1, 2, 2, 1, 0⟩ (by decide)).2.2
      (by decide)).1 (by decide)).2,
   (applyPairing_outcome [(1, P0 "a"), (2, P0 "b")] ⟨1, 2, 2, 1, 0⟩ (by decide)).1 5
      (by decide) (by decide)⟩

/-- Witness for C4: with the incomplete round the error propagates and the
state is unchanged; with the complete round the counter advances by one. -/
theorem nextRound_advances_iff_witness :
    NextRound tInc =
      (tInc, some "incomplete match found - all matches must have results") ∧
    (NextRound tComp).2 = none ∧
    (NextRound tComp).1.currentRound = tComp.currentRound + 1 :=
  ⟨(nextRound_advances_iff tInc).2
      "incomplete match found - all matches must have results" (by decide),
   ((nextRound_advances_iff tComp).1 (by decide)).1,
   ((nextRound_advances_iff tComp).1 (by decide)).2⟩

theorem addResultLoop_found (r1 : Round) (bp : Pairing) (r2 : Round) (id w l d : Int)
    (hr1 : ∀ q ∈ r1, q.playera ≠ id ∧ q.playerb ≠ id)
    (ha : bp.playera ≠ id) (hb : bp.playerb = id) :
    addResultLoop (r1 ++ bp :: r2) id w l d =
      some (r1 ++ { bp with playerbWins := w, playeraWins := l, draws := d } :: r2) := by
  induction r1 with
  | nil => simp [addResultLoop, ha, hb]
  | cons q rest ih =>
    obtain ⟨hqa, hqb⟩ := hr1 q (by simp)
    have := ih (fun q' hq' => hr1 q' (by simp [hq']))
    simp [addResultLoop, hqa, hqb, this]

/-- C10: on a round whose only pairing slot containing the sentinel `-1` is a
bye (stored as `playerb = -1`), `AddResult` with id `-1` succeeds, treating
the bye slot as the queried player: the supplied wins land in the bye side's
`playerbWins` field and the supplied losses in the real player's
`playeraWins`; scores are not validated, so recording a `-1` makes the
standings update reject the round as incomplete again. -/
theorem addResult_bye_sentinel (t : Tournament) (r1 r2 : Round) (bp : Pairing) (w l d : Int)
    (h1 : t.currentRound < t.rounds.length)
    (hsplit : curRound t = r1 ++ bp :: r2)
    (hbye : bp.playerb = BYE_OPPONENT_ID)
    (hba : bp.playera ≠ BYE_OPPONENT_ID)
    (hr1 : ∀ q ∈ r1, q.playera ≠ BYE_OPPONENT_ID ∧ q.playerb ≠ BYE_OPPONENT_ID) :
    AddResult t BYE_OPPONENT_ID w l d =
      ({ t with rounds := (t.rounds.set t.currentRound
          (r1 ++ { bp with playerbWins := w, playeraWins := l, draws := d } :: r2)) }, none) ∧
    ((w = UNINITIALIZED_RESULT ∨ l = UNINITIALIZED_RESULT ∨ d = UNINITIALIZED_RESULT) →
      (UpdatePlayerStandings (AddResult t BYE_OPPONENT_ID w l d).1).2 =
        some "incomplete match found - all matches must have results") := by
  have hg1 : ¬ t.rounds.length ≤ t.currentRound := by omega
  have hne : (curRound t).length ≠ 0 := by simp [hsplit]
  have hloop := addResultLoop_found r1 bp r2 BYE_OPPONENT_ID w l d hr1 hba hbye
  have hmain : AddResult t BYE_OPPONENT_ID w l d =
      ({ t with rounds := (t.rounds.set t.currentRound
          (r1 ++ { bp with playerbWins := w, playeraWins := l, draws := d } :: r2)) }, none) := by
    simp [AddResult, hg1, hne, hsplit, hloop]
  refine ⟨hmain, fun hneg => ?_⟩
  rw [hmain]
  set newRound := r1 ++ { bp with playerbWins := w, playeraWins := l, draws := d } :: r2 with hnr
  have hcur : curRound { t with rounds := t.rounds.set t.currentRound newRound } = newRound := by
    simp [curRound, List.getD_eq_getElem?_getD, List.getElem?_set_self' , h1]
  have hlen : ¬ (t.rounds.set t.currentRound newRound).length ≤ t.currentRound := by
    simpa using hg1
  have hinc : hasIncomplete newRound = true := by
    simp only [hasIncomplete, List.any_eq_true, hnr]
    refine ⟨{ bp with playerbWins := w, playeraWins := l, draws := d }, by simp, ?_⟩
    rcases hneg with h | h | h <;> simp [h]
  have hlennr : newRound.length ≠ 0 := by simp [hnr]
  simp [UpdatePlayerStandings, hlen, hcur, hinc, hlennr, hg1]

/-- Witness for C10: recording `(-1, 5, 6)` for id `-1` on the completed
3-player round overwrites the bye's pre-filled result and makes the round
incomplete again. -/
theorem addResult_bye_sentinel_witness :
    AddResult tComp BYE_OPPONENT_ID (-1) 5 6 =
      ({ tComp with rounds := (tComp.rounds.set tComp.currentRound
          ([⟨1, 2, 2, 1, 0⟩] ++
            { (⟨3, -1, 2, 0, 0⟩ : Pairing) with
                playerbWins := -1, playeraWins := 5, draws := 6 } :: [])) }, none) ∧
    (UpdatePlayerStandings (AddResult tComp BYE_OPPONENT_ID (-1) 5 6).1).2 =
      some "incomplete match found - all matches must have results" :=
  ⟨(addResult_bye_sentinel tComp [⟨1, 2, 2, 1, 0⟩] [] ⟨3, -1, 2, 0, 0⟩ (-1) 5 6
      (by decide) (by decide) (by decide) (by decide) (by decide)).1,
   (addResult_bye_sentinel tComp [⟨1, 2, 2, 1, 0⟩] [] ⟨3, -1, 2, 0, 0⟩ (-1) 5 6
      (by decide) (by decide) (by decide) (by decide) (by decide)).2 (by decide)⟩

end Core

namespace Core

theorem setLast_dropLast_perm (l' : List Int) (a : Int) (i : Nat)
    (h : i < (l' ++ [a]).length) :
    List.Perm ((l' ++ [a]).getD i 0 :: ((l' ++ [a]).set i a).dropLast) (l' ++ [a]) := by
  rcases Nat.lt_or_ge i l'.length with hi | hi
  · have hset : (l' ++ [a]).set i a = l'.set i a ++ [a] := List.set_append_left _ _ hi
    have hgel : (l' ++ [a]).getD i 0 = l'[i] := by
      rw [List.getD_eq_getElem?_getD, List.getElem?_append_left hi,
        List.getElem?_eq_getElem hi]
      rfl
    rw [hset, hgel, List.dropLast_concat]
    have hset2 : l'.set i a = l'.take i ++ a :: l'.drop (i + 1) :=
      List.set_eq_take_cons_drop a hi
    have hl' : l'.take i ++ l'[i] :: l'.drop (i + 1) = l' := by
      conv_rhs => rw [← List.take_append_drop i l']
      rw [List.drop_eq_getElem_cons hi]
    have step1 : List.Perm (l'[i] :: l'.set i a)
        (l'[i] :: (a :: (l'.take i ++ l'.drop (i + 1)))) := by
      rw [hset2]; exact List.Perm.cons _ List.perm_middle
    have step2 : List.Perm (l'[i] :: (a :: (l'.take i ++ l'.drop (i + 1))))
        (a :: (l'[i] :: (l'.take i ++ l'.drop (i + 1)))) :=
      List.Perm.swap a (l'[i]) _
    have step3 : List.Perm (l'[i] :: (l'.take i ++ l'.drop (i + 1))) l' := by
      conv_rhs => rw [← hl']
      exact List.perm_middle.symm
    have step4 : List.Perm (a :: l') (l' ++ [a]) := by
      simpa using (@List.perm_middle Int a l' []).symm
    exact ((step1.trans step2).trans (List.Perm.cons a step3)).trans step4
  · have hieq : i = l'.length := by
      simp only [List.length_append, List.length_cons, List.length_nil] at h
      omega
    subst hieq
    have hset : (l' ++ [a]).set l'.length a = l' ++ [a] := by
      rw [List.set_append_right _ _ (le_refl _)]
      simp
    have hgel : (l' ++ [a]).getD l'.length 0 = a := by
      simp [List.getD_eq_getElem?_getD]
    rw [hset, hgel, List.dropLast_concat]
    simpa using (@List.perm_middle Int a l' []).symm

theorem removeRandomPlayer_perm (l : List Int) (hne : l ≠ []) (idx : Nat) :
    List.Perm ((removeRandomPlayer l idx).1 :: (removeRandomPlayer l idx).2) l := by
  have hlen : 0 < l.length := List.length_pos.mpr hne
  have hilt : idx % l.length < l.length := Nat.mod_lt _ hlen
  have hd : l.dropLast ++ [l.getLastD 0] = l := by
    have ha : l.getLastD 0 = l.getLast hne := by
      simp [List.getLastD_eq_getLast?, List.getLast?_eq_getLast l hne]
    rw [ha]
    exact List.dropLast_concat_getLast hne
  have h1 : (removeRandomPlayer l idx).1 = l.getD (idx % l.length) 0 := rfl
  have h2 : (removeRandomPlayer l idx).2 =
      (l.set (idx % l.length) (l.getLastD 0)).dropLast := rfl
  rw [h1, h2]
  have main := setLast_dropLast_perm l.dropLast (l.getLastD 0) (idx % l.length)
    (by rw [hd]; exact hilt)
  rw [hd] at main
  exact main

end Core

namespace Core

theorem randomPairLoop_spec : ∀ (n : Nat) (players : List Int) (rng : List Nat),
    players.length ≤ n → (-1 : Int) ∉ players →
    roundPlayers (randomPairLoop players rng) = (players : Multiset Int) ∧
    (∀ q ∈ randomPairLoop players rng,
      (isBye q = true → q.playeraWins = BYE_WINS ∧ q.playerbWins = BYE_LOSSES ∧
        q.draws = BYE_DRAWS) ∧
      (isBye q = false → q.playeraWins = UNINITIALIZED_RESULT ∧
        q.playerbWins = UNINITIALIZED_RESULT ∧ q.draws = UNINITIALIZED_RESULT)) ∧
    (randomPairLoop players rng).countP (fun q => isBye q) =
      (if players.length % 2 = 1 then 1 else 0) := by
  intro n
  induction n with
  | zero =>
    intro players rng hlen hnb
    have : players = [] := List.length_eq_zero.mp (Nat.le_zero.mp hlen)
    subst this
    simp [randomPairLoop, roundPlayers]
  | succ n ih =>
    intro players rng hlen hnb
    match players with
    | [] => simp [randomPairLoop, roundPlayers]
    | [p] =>
      refine ⟨?_, ?_, ?_⟩
      · simp [randomPairLoop, roundPlayers, pairingPlayers, BYE_OPPONENT_ID]
      · intro q hq
        simp only [randomPairLoop, List.mem_singleton] at hq
        subst hq
        refine ⟨fun _ => ⟨rfl, rfl, rfl⟩, fun hfalse => ?_⟩
        simp [isBye, BYE_OPPONENT_ID] at hfalse
      · simp [randomPairLoop, isBye, BYE_OPPONENT_ID]
    | a :: b :: rest =>
      have hne1 : (a :: b :: rest : List Int) ≠ [] := by simp
      have hp1 := removeRandomPlayer_perm (a :: b :: rest) hne1 (rng.headD 0)
      have hlen1 : (removeRandomPlayer (a :: b :: rest) (rng.headD 0)).2.length =
          rest.length + 1 := by
        rw [length_removeRandomPlayer]; simp only [List.length_cons]; omega
      have hne2 : (removeRandomPlayer (a :: b :: rest) (rng.headD 0)).2 ≠ [] := by
        intro hc; rw [hc] at hlen1; simp at hlen1
      have hp2 := removeRandomPlayer_perm _ hne2 (rng.getD 1 0)
      have hlen2 : (removeRandomPlayer (removeRandomPlayer (a :: b :: rest)
          (rng.headD 0)).2 (rng.getD 1 0)).2.length = rest.length := by
        rw [length_removeRandomPlayer, hlen1]
        omega
      have hnb2 : (-1 : Int) ∉ (removeRandomPlayer (removeRandomPlayer (a :: b :: rest)
          (rng.headD 0)).2 (rng.getD 1 0)).2 := by
        intro hc
        exact hnb (hp1.mem_iff.mp (List.mem_cons_of_mem _
          (hp2.mem_iff.mp (List.mem_cons_of_mem _ hc))))
      have hr21 : (removeRandomPlayer (removeRandomPlayer (a :: b :: rest)
          (rng.headD 0)).2 (rng.getD 1 0)).1 ≠ -1 := by
        intro hc
        exact hnb (hp1.mem_iff.mp (List.mem_cons_of_mem _
          (hp2.mem_iff.mp (by rw [← hc]; exact List.mem_cons_self _ _))))
      have ihres := ih (removeRandomPlayer (removeRandomPlayer (a :: b :: rest)
          (rng.headD 0)).2 (rng.getD 1 0)).2 (rng.drop 2)
        (by rw [hlen2]; simp at hlen; omega) hnb2
      have hunf : randomPairLoop (a :: b :: rest) rng =
          ⟨(removeRandomPlayer (a :: b :: rest) (rng.headD 0)).1,
            (removeRandomPlayer (removeRandomPlayer (a :: b :: rest)
              (rng.headD 0)).2 (rng.getD 1 0)).1,
            UNINITIALIZED_RESULT, UNINITIALIZED_RESULT, UNINITIALIZED_RESULT⟩ ::
          randomPairLoop (removeRandomPlayer (removeRandomPlayer (a :: b :: rest)
              (rng.headD 0)).2 (rng.getD 1 0)).2 (rng.drop 2) := by
        rw [randomPairLoop]
      have hm1 : (removeRandomPlayer (a :: b :: rest) (rng.headD 0)).1 ::ₘ
          ((removeRandomPlayer (a :: b :: rest) (rng.headD 0)).2 : Multiset Int) =
          (↑(a :: b :: rest) : Multiset Int) := by
        exact_mod_cast Multiset.coe_eq_coe.mpr hp1
      have hm2 : (removeRandomPlayer (removeRandomPlayer (a :: b :: rest)
            (rng.headD 0)).2 (rng.getD 1 0)).1 ::ₘ
          ((removeRandomPlayer (removeRandomPlayer (a :: b :: rest)
            (rng.headD 0)).2 (rng.getD 1 0)).2 : Multiset Int) =
          ((removeRandomPlayer (a :: b :: rest) (rng.headD 0)).2 : Multiset Int) := by
        exact_mod_cast Multiset.coe_eq_coe.mpr hp2
      refine ⟨?_, ?_, ?_⟩
      · rw [hunf]
        simp only [roundPlayers, List.map_cons, List.sum_cons]
        have : pairingPlayers ⟨(removeRandomPlayer (a :: b :: rest) (rng.headD 0)).1,
            (removeRandomPlayer (removeRandomPlayer (a :: b :: rest)
              (rng.headD 0)).2 (rng.getD 1 0)).1,
            UNINITIALIZED_RESULT, UNINITIALIZED_RESULT, UNINITIALIZED_RESULT⟩ =
            {(removeRandomPlayer (a :: b :: rest) (rng.headD 0)).1,
             (removeRandomPlayer (removeRandomPlayer (a :: b :: rest)
              (rng.headD 0)).2 (rng.getD 1 0)).1} := by
          simp only [pairingPlayers, BYE_OPPONENT_ID]
          rw [if_neg hr21]
        rw [this]
        have hacc := ihres.1
        simp only [roundPlayers] at hacc
        rw [hacc, ← hm1, ← hm2]
        simp [Multiset.insert_eq_cons]
      · rw [hunf]
        intro q hq
        rcases List.mem_cons.mp hq with hq | hq
        · subst hq
          refine ⟨fun htrue => ?_, fun _ => ⟨rfl, rfl, rfl⟩⟩
          simp only [isBye, BYE_OPPONENT_ID, beq_iff_eq] at htrue
          exact absurd htrue hr21
        · exact ihres.2.1 q hq
      · rw [hunf]
        rw [List.countP_cons]
        have hbye0 : (isBye ⟨(removeRandomPlayer (a :: b :: rest) (rng.headD 0)).1,
            (removeRandomPlayer (removeRandomPlayer (a :: b :: rest)
              (rng.headD 0)).2 (rng.getD 1 0)).1,
            UNINITIALIZED_RESULT, UNINITIALIZED_RESULT, UNINITIALIZED_RESULT⟩) = false := by
          simp only [isBye, BYE_OPPONENT_ID]
          exact beq_eq_false_iff_ne.mpr hr21
        rw [ihres.2.2, hlen2]
        simp only [hbye0]
        have : (a :: b :: rest).length = rest.length + 2 := by simp
        rw [this]
        rcases Nat.even_or_odd rest.length with he | ho
        · have h1 : rest.length % 2 = 0 := Nat.even_iff.mp he
          have h2 : (rest.length + 2) % 2 = 0 := by omega
          simp [h1, h2]
        · have h1 : rest.length % 2 = 1 := Nat.odd_iff.mp ho
          have h2 : (rest.length + 2) % 2 = 1 := by omega
          simp [h1, h2]

end Core

namespace Core

theorem findBestOpponent_not_neg (t : Tournament) (p : Int) (sorted paired : List Int)
    (h : findBestOpponent t p sorted paired ≠ -1) :
    findBestOpponent t p sorted paired ∈ sorted ∧
    findBestOpponent t p sorted paired ≠ p ∧
    findBestOpponent t p sorted paired ∉ paired := by
  unfold findBestOpponent at *
  rcases h1 : sorted.find? (fun o => !(o == p || paired.contains o) &&
      ((mapGet t.players o).points == (mapGet t.players p).points &&
        !havePlayedBefore t p o)) with - | o1
  · rcases h2 : sorted.find? (fun o => !(o == p || paired.contains o) &&
        !havePlayedBefore t p o) with - | o2
    · rcases h3 : sorted.find? (fun o => !(o == p || paired.contains o)) with - | o3
      · rw [h1, h2, h3] at h
        exact absurd rfl h
      · have hp3 := List.find?_some h3
        have hm3 := List.mem_of_find?_eq_some h3
        simp only [Bool.not_eq_true', Bool.or_eq_false_iff, beq_eq_false_iff_ne,
          List.elem_eq_mem, decide_eq_false_iff_not] at hp3
        exact ⟨hm3, hp3.1, hp3.2⟩
    · have hp2 := List.find?_some h2
      have hm2 := List.mem_of_find?_eq_some h2
      simp only [Bool.and_eq_true, Bool.not_eq_true', Bool.or_eq_false_iff,
        beq_eq_false_iff_ne, List.elem_eq_mem, decide_eq_false_iff_not] at hp2
      exact ⟨hm2, hp2.1.1, hp2.1.2⟩
  · have hp1 := List.find?_some h1
    have hm1 := List.mem_of_find?_eq_some h1
    simp only [Bool.and_eq_true, Bool.not_eq_true', Bool.or_eq_false_iff,
      beq_eq_false_iff_ne, List.elem_eq_mem, decide_eq_false_iff_not] at hp1
    exact ⟨hm1, hp1.1.1, hp1.1.2⟩

theorem findBestOpponent_neg (t : Tournament) (p : Int) (sorted paired : List Int)
    (hnb : (-1 : Int) ∉ sorted)
    (h : findBestOpponent t p sorted paired = -1) :
    ∀ o ∈ sorted, o = p ∨ o ∈ paired := by
  have h3 : sorted.find? (fun o => !(o == p || paired.contains o)) = none := by
    rcases h3 : sorted.find? (fun o => !(o == p || paired.contains o)) with - | o3
    · rfl
    · exfalso
      have hm3 := List.mem_of_find?_eq_some h3
      unfold findBestOpponent at h
      rw [h3] at h
      rcases h1 : sorted.find? (fun o => !(o == p || paired.contains o) &&
          ((mapGet t.players o).points == (mapGet t.players p).points &&
            !havePlayedBefore t p o)) with - | o1
      · rw [h1] at h
        rcases h2 : sorted.find? (fun o => !(o == p || paired.contains o) &&
            !havePlayedBefore t p o) with - | o2
        · rw [h2] at h
          have hq : o3 = -1 := h
          exact hnb (hq ▸ hm3)
        · rw [h2] at h
          have hq : o2 = -1 := h
          exact hnb (hq ▸ List.mem_of_find?_eq_some h2)
      · rw [h1] at h
        have hq : o1 = -1 := h
        exact hnb (hq ▸ List.mem_of_find?_eq_some h1)
  intro o ho
  have := List.find?_eq_none.mp h3 o ho
  simp only [Bool.not_eq_true', Bool.not_eq_false, Bool.or_eq_true, beq_iff_eq,
    List.elem_eq_mem, decide_eq_true_eq] at this
  exact this

end Core

namespace Core

theorem pairLoop_finish (t : Tournament) (sorted : List Int) (hnd : sorted.Nodup)
    (i : Nat) (paired : List Int) (acc : List Pairing)
    (hi : sorted.length ≤ i)
    (hpref : ∀ j, j < i → ∀ (hj : j < sorted.length), sorted.get ⟨j, hj⟩ ∈ paired)
    (hpnd : paired.Nodup)
    (hsub : ∀ x ∈ paired, x ∈ sorted)
    (hrp : roundPlayers acc = (paired : Multiset Int))
    (hbyeinv : acc.countP (fun q => isBye q) = 0 ∨
      (acc.countP (fun q => isBye q) = 1 ∧ ∀ o ∈ sorted, o ∈ paired))
    (hcnt : 2 * acc.length = paired.length + acc.countP (fun q => isBye q)) :
    pairLoop t sorted i paired acc = acc ∧
    roundPlayers acc = (sorted : Multiset Int) ∧
    acc.countP (fun q => isBye q) = (if sorted.length % 2 = 1 then 1 else 0) := by
  have hstop : pairLoop t sorted i paired acc = acc := by
    rw [pairLoop, dif_neg (Nat.not_lt.mpr hi)]
  have hcov : ∀ o ∈ sorted, o ∈ paired := by
    intro o ho
    obtain ⟨j, hj, rfl⟩ := List.mem_iff_getElem.mp ho
    have := hpref j (lt_of_lt_of_le hj hi) hj
    simpa using this
  have hperm : List.Perm paired sorted :=
    List.Subperm.antisymm (List.subperm_of_subset hpnd hsub)
      (List.subperm_of_subset hnd hcov)
  have hlen := hperm.length_eq
  refine ⟨hstop, ?_, ?_⟩
  · rw [hrp]
    exact_mod_cast Multiset.coe_eq_coe.mpr hperm
  · have hble : acc.countP (fun q => isBye q) ≤ 1 := by
      rcases hbyeinv with h | ⟨h, -⟩ <;> omega
    by_cases hpar : sorted.length % 2 = 1
    · rw [if_pos hpar]; omega
    · rw [if_neg hpar]; omega

end Core

namespace Core

theorem pairLoop_invariant (t : Tournament) (sorted : List Int)
    (hnd : sorted.Nodup) (hnb : (-1 : Int) ∉ sorted) :
    ∀ (k i : Nat) (paired : List Int) (acc : List Pairing),
    sorted.length - i ≤ k →
    (∀ j, j < i → ∀ (hj : j < sorted.length), sorted.get ⟨j, hj⟩ ∈ paired) →
    paired.Nodup →
    (∀ x ∈ paired, x ∈ sorted) →
    roundPlayers acc = (paired : Multiset Int) →
    (∀ q ∈ acc,
      (isBye q = true → q.playeraWins = BYE_WINS ∧ q.playerbWins = BYE_LOSSES ∧
        q.draws = BYE_DRAWS) ∧
      (isBye q = false → q.playeraWins = UNINITIALIZED_RESULT ∧
        q.playerbWins = UNINITIALIZED_RESULT ∧ q.draws = UNINITIALIZED_RESULT)) →
    (acc.countP (fun q => isBye q) = 0 ∨
      (acc.countP (fun q => isBye q) = 1 ∧ ∀ o ∈ sorted, o ∈ paired)) →
    2 * acc.length = paired.length + acc.countP (fun q => isBye q) →
    roundPlayers (pairLoop t sorted i paired acc) = (sorted : Multiset Int) ∧
    (∀ q ∈ pairLoop t sorted i paired acc,
      (isBye q = true → q.playeraWins = BYE_WINS ∧ q.playerbWins = BYE_LOSSES ∧
        q.draws = BYE_DRAWS) ∧
      (isBye q = false → q.playeraWins = UNINITIALIZED_RESULT ∧
        q.playerbWins = UNINITIALIZED_RESULT ∧ q.draws = UNINITIALIZED_RESULT)) ∧
    (pairLoop t sorted i paired acc).countP (fun q => isBye q) =
      (if sorted.length % 2 = 1 then 1 else 0) := by
  intro k
  induction k with
  | zero =>
    intro i paired acc hk hpref hpnd hsub hrp hfld hbyeinv hcnt
    have hi : sorted.length ≤ i := by omega
    obtain ⟨hstop, h1, h2⟩ :=
      pairLoop_finish t sorted hnd i paired acc hi hpref hpnd hsub hrp hbyeinv hcnt
    rw [hstop]
    exact ⟨h1, hfld, h2⟩
  | succ k ih =>
    intro i paired acc hk hpref hpnd hsub hrp hfld hbyeinv hcnt
    by_cases hi : i < sorted.length
    case neg =>
      obtain ⟨hstop, h1, h2⟩ :=
        pairLoop_finish t sorted hnd i paired acc (Nat.not_lt.mp hi) hpref hpnd hsub hrp
          hbyeinv hcnt
      rw [hstop]
      exact ⟨h1, hfld, h2⟩
    case pos =>
    have hpmem : sorted.get ⟨i, hi⟩ ∈ sorted := List.get_mem sorted i hi
    have hpne : sorted.get ⟨i, hi⟩ ≠ -1 := fun hc => hnb (hc ▸ hpmem)
    by_cases hcont : paired.contains (sorted.get ⟨i, hi⟩) = true
    · -- already paired: skip
      have hstep : pairLoop t sorted i paired acc =
          pairLoop t sorted (i + 1) paired acc := by
        rw [pairLoop, dif_pos hi, if_pos hcont]
      rw [hstep]
      have hmem : sorted.get ⟨i, hi⟩ ∈ paired := by
        simpa using hcont
      refine ih (i + 1) paired acc (by omega) ?_ hpnd hsub hrp hfld hbyeinv hcnt
      intro j hj hj2
      rcases Nat.lt_or_ge j i with h | h
      · exact hpref j h hj2
      · have : j = i := by omega
        subst this
        exact hmem
    · have hnmem : sorted.get ⟨i, hi⟩ ∉ paired := by
        simpa using hcont
      by_cases hopp : findBestOpponent t (sorted.get ⟨i, hi⟩) sorted paired != -1
      · -- real pairing
        have hopp' : findBestOpponent t (sorted.get ⟨i, hi⟩) sorted paired ≠ -1 := by
          simpa using hopp
        obtain ⟨hom, hone, honp⟩ :=
          findBestOpponent_not_neg t (sorted.get ⟨i, hi⟩) sorted paired hopp'
        have hstep : pairLoop t sorted i paired acc =
            pairLoop t sorted (i + 1)
              (sorted.get ⟨i, hi⟩ ::
                findBestOpponent t (sorted.get ⟨i, hi⟩) sorted paired :: paired)
              (acc ++ [⟨sorted.get ⟨i, hi⟩,
                findBestOpponent t (sorted.get ⟨i, hi⟩) sorted paired,
                UNINITIALIZED_RESULT, UNINITIALIZED_RESULT, UNINITIALIZED_RESULT⟩]) := by
          rw [pairLoop, dif_pos hi, if_neg hcont, if_pos hopp]
        rw [hstep]
        have hobne : findBestOpponent t (sorted.get ⟨i, hi⟩) sorted paired ≠
            BYE_OPPONENT_ID := by
          intro hc
          simp only [BYE_OPPONENT_ID] at hc
          exact hnb (hc ▸ hom)
        have hcq : (isBye ⟨sorted.get ⟨i, hi⟩,
            findBestOpponent t (sorted.get ⟨i, hi⟩) sorted paired,
            UNINITIALIZED_RESULT, UNINITIALIZED_RESULT, UNINITIALIZED_RESULT⟩) = false := by
          simp only [isBye]
          exact beq_eq_false_iff_ne.mpr hobne
        refine ih (i + 1) _ _ (by omega) ?_ ?_ ?_ ?_ ?_ ?_ ?_
        · intro j hj hj2
          rcases Nat.lt_or_ge j i with h | h
          · exact List.mem_cons_of_mem _ (List.mem_cons_of_mem _ (hpref j h hj2))
          · have : j = i := by omega
            subst this
            exact List.mem_cons_self _ _
        · refine List.nodup_cons.mpr ⟨?_, List.nodup_cons.mpr ⟨honp, hpnd⟩⟩
          intro hc
          rcases List.mem_cons.mp hc with hc | hc
          · exact hone hc.symm
          · exact hnmem hc
        · intro x hx
          rcases List.mem_cons.mp hx with hx | hx
          · exact hx ▸ hpmem
          rcases List.mem_cons.mp hx with hx | hx
          · exact hx ▸ hom
          · exact hsub x hx
        · have hsplit : roundPlayers (acc ++ [⟨sorted.get ⟨i, hi⟩,
              findBestOpponent t (sorted.get ⟨i, hi⟩) sorted paired,
              UNINITIALIZED_RESULT, UNINITIALIZED_RESULT, UNINITIALIZED_RESULT⟩]) =
              roundPlayers acc + pairingPlayers ⟨sorted.get ⟨i, hi⟩,
                findBestOpponent t (sorted.get ⟨i, hi⟩) sorted paired,
                UNINITIALIZED_RESULT, UNINITIALIZED_RESULT, UNINITIALIZED_RESULT⟩ := by
            simp [roundPlayers]
          rw [hsplit, hrp]
          have hppr : pairingPlayers ⟨sorted.get ⟨i, hi⟩,
              findBestOpponent t (sorted.get ⟨i, hi⟩) sorted paired,
              UNINITIALIZED_RESULT, UNINITIALIZED_RESULT, UNINITIALIZED_RESULT⟩ =
              (sorted.get ⟨i, hi⟩) ::ₘ
                (findBestOpponent t (sorted.get ⟨i, hi⟩) sorted paired) ::ₘ 0 := by
            simp only [pairingPlayers]
            rw [if_neg hobne]
            rfl
          rw [hppr]
          have : ((sorted.get ⟨i, hi⟩ ::
              findBestOpponent t (sorted.get ⟨i, hi⟩) sorted paired :: paired :
                List Int) : Multiset Int) =
              (sorted.get ⟨i, hi⟩) ::ₘ
                (findBestOpponent t (sorted.get ⟨i, hi⟩) sorted paired) ::ₘ
                (paired : Multiset Int) := by
            simp
          rw [this]
          rw [add_comm, Multiset.cons_add, Multiset.cons_add]
          simp
        · intro q hq
          rcases List.mem_append.mp hq with hq | hq
          · exact hfld q hq
          · have : q = ⟨sorted.get ⟨i, hi⟩,
                findBestOpponent t (sorted.get ⟨i, hi⟩) sorted paired,
                UNINITIALIZED_RESULT, UNINITIALIZED_RESULT, UNINITIALIZED_RESULT⟩ := by
              simpa using hq
            subst this
            constructor
            · intro htrue
              rw [hcq] at htrue
              cases htrue
            · intro hfalse
              exact ⟨rfl, rfl, rfl⟩
        · rcases hbyeinv with h0 | ⟨h1, hcov⟩
          · left
            rw [List.countP_append, h0, List.countP_cons, List.countP_nil, hcq,
              if_neg (show ¬(false = true) by decide)]
          · exact absurd (hcov _ hpmem) hnmem
        · rw [List.countP_append, List.countP_cons, List.countP_nil, hcq,
            if_neg (show ¬(false = true) by decide), List.length_append]
          simp only [List.length_cons, List.length_singleton, List.length_nil]
          omega
      · -- bye
        have hopp' : findBestOpponent t (sorted.get ⟨i, hi⟩) sorted paired = -1 := by
          simpa using hopp
        have hcovall := findBestOpponent_neg t (sorted.get ⟨i, hi⟩) sorted paired hnb hopp'
        have hstep : pairLoop t sorted i paired acc =
            pairLoop t sorted (i + 1) (sorted.get ⟨i, hi⟩ :: paired)
              (acc ++ [⟨sorted.get ⟨i, hi⟩, BYE_OPPONENT_ID, BYE_WINS, BYE_LOSSES,
                BYE_DRAWS⟩]) := by
          rw [pairLoop, dif_pos hi, if_neg hcont, if_neg hopp]
        rw [hstep]
        have hacc0 : acc.countP (fun q => isBye q) = 0 := by
          rcases hbyeinv with h0 | ⟨h1, hcov⟩
          · exact h0
          · exact absurd (hcov _ hpmem) hnmem
        have hcq : (isBye ⟨sorted.get ⟨i, hi⟩, BYE_OPPONENT_ID, BYE_WINS, BYE_LOSSES,
            BYE_DRAWS⟩) = true := by
          simp [isBye]
        refine ih (i + 1) _ _ (by omega) ?_ ?_ ?_ ?_ ?_ ?_ ?_
        · intro j hj hj2
          rcases Nat.lt_or_ge j i with h | h
          · exact List.mem_cons_of_mem _ (hpref j h hj2)
          · have : j = i := by omega
            subst this
            exact List.mem_cons_self _ _
        · exact List.nodup_cons.mpr ⟨hnmem, hpnd⟩
        · intro x hx
          rcases List.mem_cons.mp hx with hx | hx
          · exact hx ▸ hpmem
          · exact hsub x hx
        · have hsplit : roundPlayers (acc ++ [⟨sorted.get ⟨i, hi⟩, BYE_OPPONENT_ID,
              BYE_WINS, BYE_LOSSES, BYE_DRAWS⟩]) =
              roundPlayers acc + pairingPlayers ⟨sorted.get ⟨i, hi⟩, BYE_OPPONENT_ID,
                BYE_WINS, BYE_LOSSES, BYE_DRAWS⟩ := by
            simp [roundPlayers]
          rw [hsplit, hrp]
          have hppr : pairingPlayers ⟨sorted.get ⟨i, hi⟩, BYE_OPPONENT_ID, BYE_WINS,
              BYE_LOSSES, BYE_DRAWS⟩ = (sorted.get ⟨i, hi⟩) ::ₘ 0 := by
            simp [pairingPlayers]
          rw [hppr]
          have : ((sorted.get ⟨i, hi⟩ :: paired : List Int) : Multiset Int) =
              (sorted.get ⟨i, hi⟩) ::ₘ (paired : Multiset Int) := by
            simp
          rw [this]
          rw [add_comm, Multiset.cons_add]
          simp
        · intro q hq
          rcases List.mem_append.mp hq with hq | hq
          · exact hfld q hq
          · have : q = ⟨sorted.get ⟨i, hi⟩, BYE_OPPONENT_ID, BYE_WINS, BYE_LOSSES,
                BYE_DRAWS⟩ := by
              simpa using hq
            subst this
            constructor
            · intro htrue
              exact ⟨rfl, rfl, rfl⟩
            · intro hfalse
              rw [hcq] at hfalse
              cases hfalse
        · right
          constructor
          · rw [List.countP_append, hacc0]
            rfl
          · intro o ho
            rcases hcovall o ho with h | h
            · exact h ▸ List.mem_cons_self _ _
            · exact List.mem_cons_of_mem _ h
        · rw [List.countP_append, List.countP_cons, List.countP_nil, hcq,
            if_pos rfl, List.length_append]
          simp only [List.length_cons, List.length_singleton, List.length_nil]
          omega

end Core

namespace Core

theorem curRound_set (t : Tournament) (X : Round) (h : t.currentRound < t.rounds.length) :
    curRound { t with rounds := t.rounds.set t.currentRound X } = X := by
  simp [curRound, List.getD_eq_getElem?_getD, List.getElem?_set_self' , h]

theorem pairBody_ok (t : Tournament) (sorted order : List Int) (rng : List Nat)
    (hp : t.players ≠ []) :
    (pairBody t sorted order rng).2 = none := by
  have hlen0 : ¬ (t.players.length == 0) = true := by
    simpa [List.length_eq_zero] using hp
  by_cases hc1 : (t.currentRound == 1) = true
  · have hred : pairBody t sorted order rng = randomPair t order rng := by
      unfold pairBody; rw [if_pos hc1]
    rw [hred]
    unfold randomPair
    rw [if_neg hlen0]
  · have hred : pairBody t sorted order rng =
        ({ t with rounds := t.rounds.set t.currentRound (pairLoop t sorted 0 [] []) },
          none) := by
      unfold pairBody; rw [if_neg hc1]
    rw [hred]

theorem pairBody_spec (t : Tournament) (sorted order : List Int) (rng : List Nat)
    (hp : t.players ≠ [])
    (hlt : t.currentRound < t.rounds.length)
    (hnd : (keys t).Nodup)
    (hnb : (-1 : Int) ∉ keys t)
    (hsorted : List.Perm sorted (keys t))
    (horder : List.Perm order (keys t)) :
    (pairBody t sorted order rng).2 = none ∧
    roundPlayers (curRound (pairBody t sorted order rng).1) = ((keys t) : Multiset Int) ∧
    (∀ q ∈ curRound (pairBody t sorted order rng).1,
      (isBye q = true → q.playeraWins = BYE_WINS ∧ q.playerbWins = BYE_LOSSES ∧
        q.draws = BYE_DRAWS) ∧
      (isBye q = false → q.playeraWins = UNINITIALIZED_RESULT ∧
        q.playerbWins = UNINITIALIZED_RESULT ∧ q.draws = UNINITIALIZED_RESULT)) ∧
    (curRound (pairBody t sorted order rng).1).countP (fun q => isBye q) =
      (if (keys t).length % 2 = 1 then 1 else 0) := by
  have hlen0 : ¬ (t.players.length == 0) = true := by
    simpa [List.length_eq_zero] using hp
  by_cases hc1 : (t.currentRound == 1) = true
  · -- round 1: random pairing
    have hred : pairBody t sorted order rng =
        ({ t with rounds := t.rounds.set t.currentRound (randomPairLoop order rng) },
          none) := by
      unfold pairBody randomPair
      rw [if_pos hc1, if_neg hlen0]
    rw [hred]
    have hcur : curRound { t with
        rounds := t.rounds.set t.currentRound (randomPairLoop order rng) } =
        randomPairLoop order rng := curRound_set t _ hlt
    have hnbO : (-1 : Int) ∉ order := fun hc => hnb (horder.mem_iff.mp hc)
    obtain ⟨hmul, hfld, hcnt⟩ :=
      randomPairLoop_spec order.length order rng (le_refl _) hnbO
    refine ⟨rfl, ?_, ?_, ?_⟩
    · rw [hcur, hmul]
      exact_mod_cast Multiset.coe_eq_coe.mpr horder
    · rw [hcur]
      exact hfld
    · rw [hcur, hcnt, horder.length_eq]
  · -- later round: Swiss walk
    have hred : pairBody t sorted order rng =
        ({ t with rounds := t.rounds.set t.currentRound (pairLoop t sorted 0 [] []) },
          none) := by
      unfold pairBody
      rw [if_neg hc1]
    rw [hred]
    have hcur : curRound { t with
        rounds := t.rounds.set t.currentRound (pairLoop t sorted 0 [] []) } =
        pairLoop t sorted 0 [] [] := curRound_set t _ hlt
    have hndS : sorted.Nodup := (List.Perm.nodup_iff hsorted).mpr hnd
    have hnbS : (-1 : Int) ∉ sorted := fun hc => hnb (hsorted.mem_iff.mp hc)
    obtain ⟨hmul, hfld, hcnt⟩ :=
      pairLoop_invariant t sorted hndS hnbS sorted.length 0 [] [] (by omega)
        (by intro j hj hj2; omega)
        List.nodup_nil
        (by intro x hx; cases hx)
        (by simp [roundPlayers])
        (by intro q hq; cases hq)
        (Or.inl rfl)
        (by simp)
    refine ⟨rfl, ?_, ?_, ?_⟩
    · rw [hcur, hmul]
      exact_mod_cast Multiset.coe_eq_coe.mpr hsorted
    · rw [hcur]
      exact hfld
    · rw [hcur, hcnt, hsorted.length_eq]

end Core

namespace Core

/-- C6: on a round that already has pairings, `Pair(false)` fails with the
already-paired error leaving the state untouched, while `Pair(true)` behaves
exactly as pairing the round after discarding its pairing set — a fresh
computation that succeeds. -/
theorem pair_already_paired (t : Tournament) (sorted order : List Int) (rng : List Nat)
    (hp : t.players ≠ [])
    (hcr : 1 ≤ t.currentRound)
    (hlt : t.currentRound < t.rounds.length)
    (hne : curRound t ≠ []) :
    Pair t false sorted order rng =
      (t, some "round already has pairings - use Pair(true) to allow re-pairing") ∧
    Pair t true sorted order rng =
      Pair { t with rounds := t.rounds.set t.currentRound [] } false sorted order rng ∧
    (Pair t true sorted order rng).2 = none := by
  have hlen0 : ¬ (t.players.length == 0) = true := by
    simpa [List.length_eq_zero] using hp
  have hnl1 : ¬ t.currentRound < 1 := by omega
  have hcond : (decide (t.currentRound < t.rounds.length) &&
      decide ((curRound t).length > 0)) = true := by
    simp [hlt, List.length_pos.mpr hne]
  have hredf : Pair t false sorted order rng =
      (t, some "round already has pairings - use Pair(true) to allow re-pairing") := by
    unfold Pair
    rw [if_neg hlen0, if_neg hnl1, if_pos hcond]
    rfl
  have hredt : Pair t true sorted order rng =
      pairBody { t with rounds := t.rounds.set t.currentRound [] } sorted order rng := by
    unfold Pair
    rw [if_neg hlen0, if_neg hnl1, if_pos hcond]
    rfl
  have hcur' : curRound { t with rounds := t.rounds.set t.currentRound [] } = [] :=
    curRound_set t [] hlt
  have hcond' : ¬ (decide (({ t with rounds := t.rounds.set t.currentRound [] } :
        Tournament).currentRound <
          ({ t with rounds := t.rounds.set t.currentRound [] } : Tournament).rounds.length) &&
      decide ((curRound { t with rounds := t.rounds.set t.currentRound [] }).length > 0)) =
        true := by
    simp [hcur']
  have hredt2 : Pair { t with rounds := t.rounds.set t.currentRound [] } false sorted
        order rng =
      pairBody { t with rounds := t.rounds.set t.currentRound [] } sorted order rng := by
    unfold Pair
    rw [if_neg hlen0, if_neg hnl1, if_neg hcond']
  refine ⟨hredf, ?_, ?_⟩
  · rw [hredt, hredt2]
  · rw [hredt]
    exact pairBody_ok _ sorted order rng hp

/-- C2: for a non-empty player set, pairing a pairable round succeeds and
produces a round in which every player id occurs exactly once (the multiset
of ids across the pairings is exactly the registry's key set), every non-bye
pairing carries the unset sentinel in all three result fields, every bye
carries the pre-filled 2–0–0 bye results, and there is exactly one bye when
the player count is odd and none when it is even. -/
theorem pair_partitions_players (t : Tournament) (repair : Bool)
    (sorted order : List Int) (rng : List Nat)
    (hp : t.players ≠ [])
    (hcr : 1 ≤ t.currentRound)
    (hlt : t.currentRound < t.rounds.length)
    (hnd : (keys t).Nodup)
    (hnb : (-1 : Int) ∉ keys t)
    (hsorted : List.Perm sorted (keys t))
    (horder : List.Perm order (keys t))
    (hrep : curRound t = [] ∨ repair = true) :
    (Pair t repair sorted order rng).2 = none ∧
    roundPlayers (curRound (Pair t repair sorted order rng).1) =
      ((keys t) : Multiset Int) ∧
    (∀ q ∈ curRound (Pair t repair sorted order rng).1,
      (isBye q = true → q.playeraWins = BYE_WINS ∧ q.playerbWins = BYE_LOSSES ∧
        q.draws = BYE_DRAWS) ∧
      (isBye q = false → q.playeraWins = UNINITIALIZED_RESULT ∧
        q.playerbWins = UNINITIALIZED_RESULT ∧ q.draws = UNINITIALIZED_RESULT)) ∧
    (curRound (Pair t repair sorted order rng).1).countP (fun q => isBye q) =
      (if (keys t).length % 2 = 1 then 1 else 0) := by
  have hlen0 : ¬ (t.players.length == 0) = true := by
    simpa [List.length_eq_zero] using hp
  have hnl1 : ¬ t.currentRound < 1 := by omega
  by_cases hcond : (decide (t.currentRound < t.rounds.length) &&
      decide ((curRound t).length > 0)) = true
  · have hrt : repair = true := by
      rcases hrep with h | h
      · exfalso
        rw [h] at hcond
        simp at hcond
      · exact h
    subst hrt
    have hred : Pair t true sorted order rng =
        pairBody { t with rounds := t.rounds.set t.currentRound [] } sorted order rng := by
      unfold Pair
      rw [if_neg hlen0, if_neg hnl1, if_pos hcond]
      rfl
    rw [hred]
    have hlt' : ({ t with rounds := t.rounds.set t.currentRound [] } :
        Tournament).currentRound <
        ({ t with rounds := t.rounds.set t.currentRound [] } : Tournament).rounds.length := by
      simpa using hlt
    exact pairBody_spec { t with rounds := t.rounds.set t.currentRound [] }
      sorted order rng hp hlt' hnd hnb hsorted horder
  · have hred : Pair t repair sorted order rng = pairBody t sorted order rng := by
      unfold Pair
      rw [if_neg hlen0, if_neg hnl1, if_neg hcond]
    rw [hred]
    exact pairBody_spec t sorted order rng hp hlt hnd hnb hsorted horder

end Core

namespace Core

/-- Witness for C6: the fully-recorded 3-player round rejects `Pair(false)`
and accepts `Pair(true)` as a full re-pair of the cleared round. -/
theorem pair_already_paired_witness :
    Pair tComp false [1, 2, 3] [1, 2, 3] [] =
      (tComp, some "round already has pairings - use Pair(true) to allow re-pairing") ∧
    Pair tComp true [1, 2, 3] [1, 2, 3] [] =
      Pair { tComp with rounds := tComp.rounds.set tComp.currentRound [] } false
        [1, 2, 3] [1, 2, 3] [] ∧
    (Pair tComp true [1, 2, 3] [1, 2, 3] []).2 = none :=
  pair_already_paired tComp [1, 2, 3] [1, 2, 3] [] (by decide) (by decide) (by decide)
    (by decide)

/-- Witness for C2: re-pairing the 3-player tournament covers each of the
ids 1, 2, 3 exactly once, with one bye (odd player count). -/
theorem pair_partitions_players_witness :
    (Pair tComp true [1, 2, 3] [1, 2, 3] []).2 = none ∧
    roundPlayers (curRound (Pair tComp true [1, 2, 3] [1, 2, 3] []).1) =
      ((keys tComp) : Multiset Int) ∧
    (∀ q ∈ curRound (Pair tComp true [1, 2, 3] [1, 2, 3] []).1,
      (isBye q = true → q.playeraWins = BYE_WINS ∧ q.playerbWins = BYE_LOSSES ∧
        q.draws = BYE_DRAWS) ∧
      (isBye q = false → q.playeraWins = UNINITIALIZED_RESULT ∧
        q.playerbWins = UNINITIALIZED_RESULT ∧ q.draws = UNINITIALIZED_RESULT)) ∧
    (curRound (Pair tComp true [1, 2, 3] [1, 2, 3] []).1).countP (fun q => isBye q) =
      (if (keys tComp).length % 2 = 1 then 1 else 0) :=
  pair_partitions_players tComp true [1, 2, 3] [1, 2, 3] [] (by decide) (by decide)
    (by decide) (by decide) (by decide) (by decide) (by decide) (Or.inr rfl)

end Core

namespace Core

theorem havePlayedBefore_iff (t : Tournament) (a b : Int) :
    havePlayedBefore t a b = true ↔ PlayedBefore t a b := by
  unfold havePlayedBefore
  rw [List.any_eq_true]
  constructor
  · rintro ⟨rd, hrd, hb⟩
    rw [List.mem_range'] at hrd
    obtain ⟨idx, hidx, rfl⟩ := hrd
    by_cases hl : t.rounds.length ≤ 1 + 1 * idx
    · rw [if_pos hl] at hb
      cases hb
    · rw [if_neg hl] at hb
      simp only [roundHasBoth, List.any_eq_true, Bool.or_eq_true, Bool.and_eq_true,
        beq_iff_eq] at hb
      obtain ⟨p, hp, hc⟩ := hb
      exact ⟨1 + 1 * idx, by omega, by omega, p, hp, hc⟩
  · rintro ⟨rd, h1, h2, p, hp, hc⟩
    have hl : rd < t.rounds.length := by
      by_contra hge
      simp [List.getD_eq_getElem?_getD,
        List.getElem?_eq_none (show t.rounds.length ≤ rd by omega)] at hp
    refine ⟨rd, ?_, ?_⟩
    · rw [List.mem_range']
      exact ⟨rd - 1, by omega, by omega⟩
    · rw [if_neg (by omega)]
      simp only [roundHasBoth, List.any_eq_true, Bool.or_eq_true, Bool.and_eq_true,
        beq_iff_eq]
      exact ⟨p, hp, hc⟩

/-- C5: the opponent search follows exactly the spec's three-tier priority —
first the earliest unpaired same-points opponent never played before, then
the earliest unpaired opponent never played before, then the earliest
unpaired opponent at all, and `-1` when none remains — where "played
before" holds exactly when some pairing of a prior round `1..currentRound-1`
contains both ids in either order. -/
theorem findBestOpponent_priority (t : Tournament) (playerID : Int)
    (sorted paired : List Int) :
    (∀ a b : Int, havePlayedBefore t a b = true ↔ PlayedBefore t a b) ∧
    findBestOpponent t playerID sorted paired =
      (match sorted.find? (fun o => decide (SamePointsFresh t playerID paired o)) with
       | some o => o
       | none =>
         match sorted.find? (fun o => decide (FreshOpponent t playerID paired o)) with
         | some o => o
         | none =>
           match sorted.find? (fun o => decide (AnyOpponent playerID paired o)) with
           | some o => o
           | none => -1) := by
  refine ⟨fun a b => havePlayedBefore_iff t a b, ?_⟩
  have hbridge : ∀ o, havePlayedBefore t playerID o = false ↔ ¬ PlayedBefore t playerID o :=
    fun o => by
      rw [← havePlayedBefore_iff]
      exact ⟨fun h => by simp [h], fun h => by simpa using h⟩
  have e1 : (fun o => !(o == playerID || paired.contains o) &&
      ((mapGet t.players o).points == (mapGet t.players playerID).points &&
        !havePlayedBefore t playerID o)) =
      (fun o => decide (SamePointsFresh t playerID paired o)) := by
    funext o
    rw [Bool.eq_iff_iff]
    simp only [Bool.and_eq_true, Bool.not_eq_true', Bool.or_eq_false_iff,
      beq_eq_false_iff_ne, List.elem_eq_mem, decide_eq_false_iff_not, beq_iff_eq,
      decide_eq_true_eq, SamePointsFresh, hbridge o]
    tauto
  have e2 : (fun o => !(o == playerID || paired.contains o) &&
      !havePlayedBefore t playerID o) =
      (fun o => decide (FreshOpponent t playerID paired o)) := by
    funext o
    rw [Bool.eq_iff_iff]
    simp only [Bool.and_eq_true, Bool.not_eq_true', Bool.or_eq_false_iff,
      beq_eq_false_iff_ne, List.elem_eq_mem, decide_eq_false_iff_not,
      decide_eq_true_eq, FreshOpponent, hbridge o]
    tauto
  have e3 : (fun o => !(o == playerID || paired.contains o)) =
      (fun o => decide (AnyOpponent playerID paired o)) := by
    funext o
    rw [Bool.eq_iff_iff]
    simp only [Bool.not_eq_true', Bool.or_eq_false_iff, beq_eq_false_iff_ne,
      List.elem_eq_mem, decide_eq_false_iff_not, decide_eq_true_eq, AnyOpponent]
  unfold findBestOpponent
  rw [e1, e2, e3]

end Core

namespace Snapshot

theorem mapSet_not_mem (m : List (Int × Player)) (id : Int) (p : Player)
    (h : ∀ kv ∈ m, kv.1 ≠ id) : mapSet m id p = m ++ [(id, p)] := by
  induction m with
  | nil => rfl
  | cons kv rest ih =>
    have hk : kv.1 ≠ id := h kv (List.mem_cons_self _ _)
    simp only [mapSet, beq_iff_eq, if_neg hk, List.cons_append, List.cons.injEq, true_and]
    exact ih fun kv' hkv' => h kv' (List.mem_cons_of_mem _ hkv')

theorem loadPlayers_go (pes : List playerExport) (acc : List (Int × Player))
    (hnd : (pes.map (fun pe => pe.ID)).Nodup)
    (hdisj : ∀ pe ∈ pes, ∀ kv ∈ acc, kv.1 ≠ pe.ID) :
    pes.foldl (fun m pe => mapSet m pe.ID (fromPlayerExport pe)) acc =
      acc ++ pes.map (fun pe => (pe.ID, fromPlayerExport pe)) := by
  induction pes generalizing acc with
  | nil => simp
  | cons pe rest ih =>
    have hnd' : (pe.ID :: rest.map (fun pe => pe.ID)).Nodup := by simpa using hnd
    obtain ⟨hnotin, hndrest⟩ := List.nodup_cons.mp hnd'
    simp only [List.foldl_cons, List.map_cons]
    rw [mapSet_not_mem acc pe.ID (fromPlayerExport pe)
      (fun kv hkv => hdisj pe (List.mem_cons_self _ _) kv hkv)]
    rw [ih (acc ++ [(pe.ID, fromPlayerExport pe)]) hndrest ?_]
    · simp
    · intro pe' hpe' kv hkv
      rcases List.mem_append.mp hkv with hkv | hkv
      · exact hdisj pe' (List.mem_cons_of_mem _ hpe') kv hkv
      · have : kv = (pe.ID, fromPlayerExport pe) := by simpa using hkv
        subst this
        intro hc
        have hc' : pe.ID = pe'.ID := hc
        exact hnotin (by rw [hc']; exact List.mem_map.mpr ⟨pe', hpe', rfl⟩)

theorem lookup?_of_map (ids : List Int) (f : Int → Player) (q : Int) :
    lookup? (ids.map (fun id => (id, f id))) q =
      (if q ∈ ids then some (f q) else none) := by
  induction ids with
  | nil => simp [lookup?]
  | cons a rest ih =>
    by_cases h : a = q
    · subst h
      simp [lookup?]
    · simp only [List.map_cons, lookup?, beq_iff_eq, if_neg h, ih, List.mem_cons]
      have : (q = a ∨ q ∈ rest) ↔ q ∈ rest := by
        constructor
        · rintro (hq | hq)
          · exact absurd hq.symm h
          · exact hq
        · exact Or.inr
      rw [if_congr this rfl rfl]

theorem lookup?_eq_mapGet (m : List (Int × Player)) (q : Int) :
    lookup? m q = (if q ∈ m.map Prod.fst then some (mapGet m q) else none) := by
  induction m with
  | nil => simp [lookup?]
  | cons kv rest ih =>
    by_cases h : kv.1 = q
    · simp [lookup?, mapGet, h]
    · simp only [lookup?, mapGet, beq_iff_eq, if_neg h, ih, List.map_cons, List.mem_cons]
      have : (q = kv.1 ∨ q ∈ rest.map Prod.fst) ↔ q ∈ rest.map Prod.fst := by
        constructor
        · rintro (hq | hq)
          · exact absurd hq.symm h
          · exact hq
        · exact Or.inr
      rw [if_congr this rfl rfl]

/-- C8: reloading the dumped snapshot reconstructs the complete core state —
the config, last id, round counter, lifecycle flags, every round's pairing
list with its (possibly unset) results, and a player map that agrees with
the original on every id (all cumulative stats, notes, removal data and
optional metadata included). -/
theorem dump_load_roundtrip (t : Tournament)
    (hnd : (t.players.map Prod.fst).Nodup) :
    (LoadTournament (DumpTournament t)).config = t.config ∧
    (LoadTournament (DumpTournament t)).lastId = t.lastId ∧
    (LoadTournament (DumpTournament t)).currentRound = t.currentRound ∧
    (LoadTournament (DumpTournament t)).started = t.started ∧
    (LoadTournament (DumpTournament t)).finished = t.finished ∧
    (LoadTournament (DumpTournament t)).rounds = t.rounds ∧
    (∀ id : Int, lookup? (LoadTournament (DumpTournament t)).players id =
      lookup? t.players id) := by
  refine ⟨rfl, rfl, rfl, rfl, rfl, ?_, ?_⟩
  · show (t.rounds.map fun r => r.map toPairingExport).map
        (fun r => r.map fromPairingExport) = t.rounds
    rw [List.map_map]
    have : ((fun r : List pairingExport => r.map fromPairingExport) ∘
        (fun r : Core.Round => r.map toPairingExport)) = id := by
      funext r
      simp only [Function.comp_apply, List.map_map]
      have : (fromPairingExport ∘ toPairingExport) = id := funext fun pr => rfl
      rw [this, List.map_id, id]
    rw [this, List.map_id]
  · intro q
    set sortedIds := (t.players.map Prod.fst).insertionSort (· ≤ ·) with hsid
    have hperm : List.Perm sortedIds (t.players.map Prod.fst) :=
      List.perm_insertionSort _ _
    have hndS : sortedIds.Nodup := (List.Perm.nodup_iff hperm).mpr hnd
    have hids : ((sortedIds.map fun id => toPlayerExport id (mapGet t.players id)).map
        (fun pe => pe.ID)) = sortedIds := by
      rw [List.map_map]
      exact List.map_id _
    have hload : (LoadTournament (DumpTournament t)).players =
        sortedIds.map (fun id => (id, mapGet t.players id)) := by
      show (sortedIds.map fun id => toPlayerExport id (mapGet t.players id)).foldl
          (fun m pe => mapSet m pe.ID (fromPlayerExport pe)) [] = _
      rw [loadPlayers_go _ [] (by rw [hids]; exact hndS) (by intro pe hpe kv hkv; cases hkv)]
      rw [List.nil_append, List.map_map]
      rfl
    rw [hload, lookup?_of_map, lookup?_eq_mapGet]
    rw [if_congr (Iff.intro (fun h => hperm.mem_iff.mp h) (fun h => hperm.mem_iff.mpr h))
      rfl rfl]

/-- Witness for C8: the two-player snapshot (removed player, notes, external
id, decklist, unset results all present) reloads to the identical state. -/
theorem dump_load_roundtrip_witness :
    (LoadTournament (DumpTournament tSnap)).config = tSnap.config ∧
    (LoadTournament (DumpTournament tSnap)).lastId = tSnap.lastId ∧
    (LoadTournament (DumpTournament tSnap)).currentRound = tSnap.currentRound ∧
    (LoadTournament (DumpTournament tSnap)).started = tSnap.started ∧
    (LoadTournament (DumpTournament tSnap)).finished = tSnap.finished ∧
    (LoadTournament (DumpTournament tSnap)).rounds = tSnap.rounds ∧
    lookup? (LoadTournament (DumpTournament tSnap)).players 2 =
      lookup? tSnap.players 2 := by
  obtain ⟨h1, h2, h3, h4, h5, h6, h7⟩ := dump_load_roundtrip tSnap (by decide)
  exact ⟨h1, h2, h3, h4, h5, h6, h7 2⟩

end Snapshot

namespace RegistryModel

/-- C7: `addPlayer` rejects an empty name and a name already used by a
currently-active (non-removed) player, changing nothing on failure; on
success it assigns `lastId + 1` from the never-decremented counter, so under
the counter invariant the new id is fresh and ids stay unique and strictly
increasing. -/
theorem addPlayer_spec (r : Registry) (nm : String)
    (hinv : ∀ k ∈ r.players.map Prod.fst, k ≤ r.lastId) :
    r.lastId ≤ (addPlayer r nm).1.lastId ∧
    ((nm = "" ∨ ∃ kv ∈ r.players, kv.2.removed = false ∧ kv.2.name = nm) →
      (addPlayer r nm).1 = r ∧ (addPlayer r nm).2 ≠ none) ∧
    (nm ≠ "" → (∀ kv ∈ r.players, kv.2.removed = false → kv.2.name ≠ nm) →
      (addPlayer r nm).2 = none ∧
      (addPlayer r nm).1.lastId = r.lastId + 1 ∧
      (addPlayer r nm).1.players.map Prod.fst = r.players.map Prod.fst ++ [r.lastId + 1] ∧
      (r.lastId + 1) ∉ r.players.map Prod.fst ∧
      ((r.players.map Prod.fst).Nodup → ((addPlayer r nm).1.players.map Prod.fst).Nodup) ∧
      (∀ k ∈ (addPlayer r nm).1.players.map Prod.fst, k ≤ (addPlayer r nm).1.lastId)) := by
  have hdup : (r.players.any fun kv => !kv.2.removed && kv.2.name == nm) = true ↔
      ∃ kv ∈ r.players, kv.2.removed = false ∧ kv.2.name = nm := by
    simp [List.any_eq_true, Bool.and_eq_true, Bool.not_eq_true', beq_iff_eq]
  by_cases he : nm = ""
  · have hred : addPlayer r nm = (r, some "InvalidInput: empty name") := by
      unfold addPlayer
      rw [if_pos he]
    rw [hred]
    exact ⟨le_refl _, fun _ => ⟨rfl, by simp⟩, fun hne _ => absurd he hne⟩
  · by_cases hd : (r.players.any fun kv => !kv.2.removed && kv.2.name == nm) = true
    · have hred : addPlayer r nm =
          (r, some "InvalidInput: name already used by an active player") := by
        unfold addPlayer
        rw [if_neg he, if_pos hd]
      rw [hred]
      refine ⟨le_refl _, fun _ => ⟨rfl, by simp⟩, fun _ hnone => ?_⟩
      obtain ⟨kv, hkv, hrem, hname⟩ := hdup.mp hd
      exact absurd hname (hnone kv hkv hrem)
    · have hred : addPlayer r nm =
          ({ r with
              lastId := r.lastId + 1
              players := r.players ++ [(r.lastId + 1,
                { name := nm, notes := if r.started then ["Late entry"] else [],
                  removed := false })] }, none) := by
        unfold addPlayer
        rw [if_neg he, if_neg hd]
      rw [hred]
      have hfresh : (r.lastId + 1) ∉ r.players.map Prod.fst := by
        intro hc
        have := hinv _ hc
        omega
      refine ⟨by simp, ?_, fun _ _ => ?_⟩
      · rintro (hc | hc)
        · exact absurd hc he
        · exact absurd (hdup.mpr hc) hd
      · refine ⟨rfl, rfl, by simp, hfresh, ?_, ?_⟩
        · intro hndk
          simp only [List.map_append, List.map_cons, List.map_nil]
          rw [List.nodup_append]
          refine ⟨hndk, List.nodup_singleton _, ?_⟩
          intro a ha hb
          have : a = r.lastId + 1 := by simpa using hb
          subst this
          exact hfresh ha
        · intro k hk
          simp only [List.map_append, List.map_cons, List.map_nil, List.mem_append,
            List.mem_singleton] at hk
          rcases hk with hk | hk
          · have := hinv k hk
            simp only []
            omega
          · subst hk
            simp

/-- Witness for C7: the duplicate active name "Dylan" is rejected without
state change, while adding to a fresh registry succeeds with id 1. -/
theorem addPlayer_spec_witness :
    (addPlayer ⟨1, [(1, ⟨"Dylan", [], false⟩)], false⟩ "Dylan").1 =
      (⟨1, [(1, ⟨"Dylan", [], false⟩)], false⟩ : Registry) ∧
    (addPlayer ⟨1, [(1, ⟨"Dylan", [], false⟩)], false⟩ "Dylan").2 ≠ none ∧
    (addPlayer ⟨0, [], false⟩ "Dylan").2 = none ∧
    (addPlayer ⟨0, [], false⟩ "Dylan").1.lastId = 0 + 1 :=
  ⟨((addPlayer_spec ⟨1, [(1, ⟨"Dylan", [], false⟩)], false⟩ "Dylan" (by decide)).2.1
      (Or.inr (by decide))).1,
   ((addPlayer_spec ⟨1, [(1, ⟨"Dylan", [], false⟩)], false⟩ "Dylan" (by decide)).2.1
      (Or.inr (by decide))).2,
   ((addPlayer_spec ⟨0, [], false⟩ "Dylan" (by decide)).2.2 (by decide)
      (by intro kv hkv; cases hkv)).1,
   ((addPlayer_spec ⟨0, [], false⟩ "Dylan" (by decide)).2.2 (by decide)
      (by intro kv hkv; cases hkv)).2.1⟩

end RegistryModel

namespace Tiebreak

theorem sum_bounds_of_forall (l : List ℚ) (c C : ℚ)
    (h : ∀ x ∈ l, c ≤ x ∧ x ≤ C) :
    (l.length : ℚ) * c ≤ l.sum ∧ l.sum ≤ (l.length : ℚ) * C := by
  induction l with
  | nil => simp
  | cons a rest ih =>
    obtain ⟨h1, h2⟩ := h a (List.mem_cons_self _ _)
    obtain ⟨ih1, ih2⟩ := ih fun x hx => h x (List.mem_cons_of_mem _ hx)
    simp only [List.sum_cons, List.length_cons]
    push_cast
    constructor
    · have he : ((rest.length : ℚ) + 1) * c = (rest.length : ℚ) * c + c := by ring
      rw [he]
      linarith
    · have he : ((rest.length : ℚ) + 1) * C = (rest.length : ℚ) * C + C := by ring
      rw [he]
      linarith

/-- C9: the opponent percentage reported by the tiebreaker — the average of
the per-opponent percentages floored up to one-third — always lies in the
interval `[1/3, 1]` for a player with at least one counted opponent whose
record is consistent (successes never exceed tries). -/
theorem opponentAveragePct_bounds (opps : List (Nat × Nat))
    (hne : opps ≠ [])
    (hle : ∀ o ∈ opps, o.1 ≤ o.2) :
    1 / 3 ≤ opponentAveragePct opps ∧ opponentAveragePct opps ≤ 1 := by
  have hnpos : (0 : ℚ) < (opps.length : ℚ) := by
    have : 0 < opps.length := List.length_pos.mpr hne
    exact_mod_cast this
  have hbound : ∀ x ∈ opps.map fun o => flooredPct o.1 o.2,
      (1 / 3 : ℚ) ≤ x ∧ x ≤ 1 := by
    intro x hx
    obtain ⟨o, ho, rfl⟩ := List.mem_map.mp hx
    refine ⟨le_max_left _ _, max_le (by norm_num) ?_⟩
    rcases Nat.eq_zero_or_pos o.2 with h0 | hpos
    · rw [h0]
      norm_num
    · rw [div_le_one (by exact_mod_cast hpos)]
      exact_mod_cast hle o ho
  obtain ⟨hlow, hhigh⟩ :=
    sum_bounds_of_forall (opps.map fun o => flooredPct o.1 o.2) (1 / 3) 1 hbound
  rw [List.length_map] at hlow hhigh
  unfold opponentAveragePct
  constructor
  · rw [le_div_iff hnpos]
    calc (1 / 3 : ℚ) * (opps.length : ℚ) = (opps.length : ℚ) * (1 / 3) := by ring
      _ ≤ _ := hlow
  · rw [div_le_one hnpos]
    calc (opps.map fun o => flooredPct o.1 o.2).sum ≤ (opps.length : ℚ) * 1 := hhigh
      _ = (opps.length : ℚ) := by ring

/-- Witness for C9: two opponents with records 0/3 and 3/3 average to 2/3,
inside `[1/3, 1]`. -/
theorem opponentAveragePct_bounds_witness :
    1 / 3 ≤ opponentAveragePct [(0, 3), (3, 3)] ∧
    opponentAveragePct [(0, 3), (3, 3)] ≤ 1 :=
  opponentAveragePct_bounds [(0, 3), (3, 3)] (by decide) (by decide)

end Tiebreak
